import Mathlib

/-!
Shallow embedding of the Telegram Mini App backend in src/webapp.py.

The embedding models, faithfully to the Python source:
  * verify_telegram_init_data (initData parsing, canonical check-string,
    HMAC comparison, user extraction),
  * the per-user configuration store endpoints (set_budget, list_alerts,
    upsert_alert, parse_levels, list_dca, upsert_dca, get_priority,
    set_priority) over an explicit database state,
  * the Python value/error machinery they rely on (json.loads/json.dumps,
    float(), int(), bool(), str.strip/upper/split, urllib.parse.parse_qsl).

The HMAC-SHA256 core is kept abstract as a parameter (a function from key
bytes and message bytes to digest bytes); every property proved here is
about the surrounding logic, which is what the claims are about.

Modelling conventions:
  * Python str is Lean String; percent-decoding is modelled at byte level
    (each %XX becomes the character with that code), which agrees with the
    source on ASCII data; str.upper/strip are modelled on their ASCII
    fragment.
  * Python numbers are Int / Rat (exact); the claims never depend on
    binary floating-point rounding.
  * A raised exception is an explicit PyErr value: HTTPException carries
    its status and detail, while unhandled Python exceptions
    (ValueError/TypeError/AttributeError, with abbreviated messages) are
    separate constructors, since they surface as HTTP 500, not as the
    classified 4xx failures.
-/

namespace Webapp

/-- Outcome of a raised Python exception: either a FastAPI `HTTPException`
(classified, mapped to its status code) or an unhandled builtin exception
(which FastAPI surfaces as an internal server error). -/
inductive PyErr where
  | http (status : Nat) (detail : String)
  | valueError (msg : String)
  | typeError (msg : String)
  | attributeError (msg : String)
deriving DecidableEq

/-- Python/JSON values as needed by webapp.py: the result of `json.loads`
and the values found in request bodies. -/
inductive JVal where
  | null
  | bool (b : Bool)
  | num (n : Int)
  | flt (q : Rat)
  | str (s : String)
  | arr (xs : List JVal)
  | obj (kvs : List (String × JVal))

/-- Python whitespace (ASCII fragment): the characters stripped by
`str.strip()` and used as separators by `str.split()`. -/
def isPyWs (c : Char) : Bool :=
  c == ' ' || c == '\t' || c == '\n' || c == '\r' || c == '\x0b' || c == '\x0c'

/-- `str.strip()` on a character list. -/
def pyStripL (cs : List Char) : List Char :=
  ((cs.dropWhile isPyWs).reverse.dropWhile isPyWs).reverse

/-- Python `str.strip()` (ASCII-whitespace fragment). -/
def pyStrip (s : String) : String := ⟨pyStripL s.data⟩

/-- ASCII uppercasing of one character, as done by `str.upper()` on
ASCII input. -/
def asciiUpper (c : Char) : Char :=
  if 'a' ≤ c ∧ c ≤ 'z' then Char.ofNat (c.toNat - 32) else c

/-- Python `str.upper()` (ASCII fragment). -/
def pyUpper (s : String) : String := ⟨s.data.map asciiUpper⟩

/-- Lexicographic code-point comparison of character lists; this is how
Python compares strings (used by `sorted`). -/
def listLeChar : List Char → List Char → Bool
  | [], _ => true
  | _ :: _, [] => false
  | a :: as, b :: bs => if a = b then listLeChar as bs else decide (a < b)

/-- Python string ordering `a <= b` (code-point lexicographic). -/
def strLe (a b : String) : Bool := listLeChar a.data b.data

/-- Insert into a sorted list, keeping elements ordered by `le`. -/
def insertLe {α : Type} (le : α → α → Bool) (x : α) : List α → List α
  | [] => [x]
  | y :: ys => if le x y then x :: y :: ys else y :: insertLe le x ys

/-- Insertion sort by `le`; models Python `sorted` (stable, ascending). -/
def sortLe {α : Type} (le : α → α → Bool) (l : List α) : List α :=
  l.foldr (insertLe le) []

/-- Does the second list start with the first? -/
def leadsWith : List Char → List Char → Bool
  | [], _ => true
  | _ :: _, [] => false
  | a :: as, b :: bs => a == b && leadsWith as bs

/-- Substring search on character lists. -/
def subOf (needle : List Char) : List Char → Bool
  | [] => needle.isEmpty
  | c :: t => leadsWith needle (c :: t) || subOf needle t

/-- Python substring containment: `needle in hay`. -/
def strContains (hay needle : String) : Bool := subOf needle.data hay.data

/-- Split a query-string field at its first `=`, like Python
`name_value.split("=", 1)`; `none` when there is no `=`. -/
def splitFirstEq : List Char → Option (List Char × List Char)
  | [] => none
  | c :: rest =>
    if c = '=' then some ([], rest)
    else
      match splitFirstEq rest with
      | none => none
      | some (a, b) => some (c :: a, b)

/-- The `+` → space replacement parse_qsl applies before percent-decoding. -/
def plusSpace (cs : List Char) : List Char :=
  cs.map (fun c => if c = '+' then ' ' else c)

/-- Hexadecimal digit value. -/
def hexVal (c : Char) : Option Nat :=
  if '0' ≤ c ∧ c ≤ '9' then some (c.toNat - 48)
  else if 'a' ≤ c ∧ c ≤ 'f' then some (c.toNat - 87)
  else if 'A' ≤ c ∧ c ≤ 'F' then some (c.toNat - 55)
  else none

/-- Percent-decoding (urllib.parse.unquote), modelled at byte level: each
valid %XX becomes the character with that code; a `%` not followed by two
hex digits stays literal. Agrees with the source for ASCII data. -/
def unquoteL : List Char → List Char
  | [] => []
  | '%' :: a :: b :: rest =>
    (match hexVal a, hexVal b with
     | some x, some y => Char.ofNat (16 * x + y) :: unquoteL rest
     | _, _ => '%' :: unquoteL (a :: b :: rest))
  | c :: rest => c :: unquoteL rest

/-- One `&`-separated field of a query string, decoded as parse_qsl with
keep_blank_values=True does: empty fields are dropped, a field with no `=`
becomes a key with empty value, and both name and value get `+` → space
then percent-decoding. -/
def qslField (nv : List Char) : Option (String × String) :=
  if nv.isEmpty then none
  else
    match splitFirstEq nv with
    | some (n, v) => some (⟨unquoteL (plusSpace n)⟩, ⟨unquoteL (plusSpace v)⟩)
    | none => some (⟨unquoteL (plusSpace nv)⟩, "")

/-- `qs.split("&")`: split on the ampersand separator, keeping empty
fields (Python's str.split with an explicit separator). -/
def splitAmp : List Char → List (List Char)
  | [] => [[]]
  | c :: rest =>
    if c = '&' then [] :: splitAmp rest
    else
      match splitAmp rest with
      | [] => [[c]]
      | w :: ws => (c :: w) :: ws

/-- `urllib.parse.parse_qsl(init_data, keep_blank_values=True)`. -/
def parseQsl (qs : String) : List (String × String) :=
  (splitAmp qs.data).filterMap qslField

/-- Insert-or-replace in an association list: the semantics of assignment
into a Python dict and of SQL upsert on a keyed row. An existing key keeps
its position and gets the new value; a new key is appended. -/
def upd {κ ν : Type} [DecidableEq κ] : List (κ × ν) → κ → ν → List (κ × ν)
  | [], k, v => [(k, v)]
  | (k', v') :: rest, k, v =>
    if k' = k then (k, v) :: rest else (k', v') :: upd rest k v

/-- Association-list lookup (first match; on dict-shaped lists keys are
unique so this is dict access). -/
def alook {κ ν : Type} [DecidableEq κ] (k : κ) : List (κ × ν) → Option ν
  | [] => none
  | (k', v) :: rest => if k' = k then some v else alook k rest

/-- `dict(pairs)`: successive assignment, so duplicate keys resolve to the
last occurrence (at the position of the first). -/
def dictOfPairs (l : List (String × String)) : List (String × String) :=
  l.foldl (fun d kv => upd d kv.1 kv.2) []

/-- The canonical data-check string of webapp.py:
keys sorted lexicographically, joined as key=value lines with a single
newline separator. -/
def dataCheckString (pairs : List (String × String)) : String :=
  String.intercalate "\n"
    ((sortLe strLe (pairs.map Prod.fst)).map
      (fun k => k ++ "=" ++ (alook k pairs).getD ""))

/-- Lowercase hexadecimal digit. -/
def hexDigitChar (n : Nat) : Char :=
  if n < 10 then Char.ofNat (48 + n) else Char.ofNat (87 + n)

/-- `.hexdigest()`: the lowercase-hex rendering of a digest byte list. -/
def hexLower (bs : List Nat) : String :=
  ⟨(bs.map (fun b => [hexDigitChar (b / 16 % 16), hexDigitChar (b % 16)])).flatten⟩

/-- UTF-8 encoding of one character (Python `str.encode()`). -/
def utf8Bytes (c : Char) : List Nat :=
  let n := c.toNat
  if n < 0x80 then [n]
  else if n < 0x800 then [0xc0 + n / 64, 0x80 + n % 64]
  else if n < 0x10000 then [0xe0 + n / 4096, 0x80 + n / 64 % 64, 0x80 + n % 64]
  else [0xf0 + n / 262144, 0x80 + n / 4096 % 64, 0x80 + n / 64 % 64, 0x80 + n % 64]

/-- `str.encode()`: UTF-8 bytes of a string. -/
def strBytes (s : String) : List Nat := (s.data.map utf8Bytes).flatten

/-- Decimal digit value. -/
def digitVal (c : Char) : Option Nat :=
  if '0' ≤ c ∧ c ≤ '9' then some (c.toNat - 48) else none

/-- Greedily consume decimal digits, allowing a single `_` between two
digits as Python numeric literals do; returns (value, digit count, rest).
An `_` not followed by a digit is left in place, which makes the enclosing
literal parse fail on the leftover, matching Python's ValueError. -/
def digitsRun : List Char → Nat → Nat → Nat × Nat × List Char
  | [], acc, cnt => (acc, cnt, [])
  | c :: rest, acc, cnt =>
    match digitVal c with
    | some d => digitsRun rest (10 * acc + d) (cnt + 1)
    | none =>
      match c, rest with
      | '_', r :: rest₂ =>
        (match digitVal r with
         | some d => digitsRun rest₂ (10 * acc + d) (cnt + 1)
         | none => (acc, cnt, c :: rest))
      | _, _ => (acc, cnt, c :: rest)

/-- Python `int(s)` on a string: optional surrounding whitespace, optional
sign, base-10 digits (with `_` separators); `none` is a ValueError. -/
def parseIntLit (s : String) : Option Int :=
  let cs := pyStripL s.data
  let sg : Int × List Char :=
    match cs with
    | '+' :: r => (1, r)
    | '-' :: r => (-1, r)
    | _ => (1, cs)
  match sg.2 with
  | [] => none
  | c :: _ =>
    match digitVal c with
    | none => none
    | some _ =>
      let t := digitsRun sg.2 0 0
      if t.2.2.isEmpty then some (sg.1 * t.1) else none

/-- Powers of ten in Rat, for decimal literals. -/
def pow10 (n : Nat) : Rat := (10 : Rat) ^ n

/-- Python `float(s)` on a string (finite decimal literals; the inf/nan
spellings are outside this Rat-valued model and no claim touches them).
`none` is a ValueError. -/
def parseFloatLit (s : String) : Option Rat :=
  let cs := pyStripL s.data
  let sg : Rat × List Char :=
    match cs with
    | '+' :: r => (1, r)
    | '-' :: r => (-1, r)
    | _ => (1, cs)
  -- integer part (may be empty when the literal starts with '.')
  let ip : Nat × Nat × List Char :=
    match sg.2 with
    | c :: _ =>
      (match digitVal c with
       | some _ => digitsRun sg.2 0 0
       | none => (0, 0, sg.2))
    | [] => (0, 0, [])
  -- fractional part
  let fr : Option (Nat × Nat × List Char) :=
    match ip.2.2 with
    | '.' :: r =>
      (match r with
       | c :: _ =>
         (match digitVal c with
          | some _ => some (digitsRun r 0 0)
          | none => if ip.2.1 = 0 then none else some (0, 0, r))
       | [] => if ip.2.1 = 0 then none else some (0, 0, []))
    | rest => some (0, 0, rest)
  match fr with
  | none => none
  | some f =>
    -- at least one digit must appear overall
    if ip.2.1 = 0 ∧ f.2.1 = 0 then none
    else
      -- exponent part
      let ex : Option (Rat × List Char) :=
        match f.2.2 with
        | 'e' :: r => parseExpTail r
        | 'E' :: r => parseExpTail r
        | rest => some (1, rest)
      match ex with
      | none => none
      | some e =>
        if e.2.isEmpty then
          some (sg.1 * ((ip.1 : Rat) + (f.1 : Rat) / pow10 f.2.1) * e.1)
        else none
where
  /-- Exponent tail after `e`/`E`: optional sign then digits; yields the
  scale factor. -/
  parseExpTail (r : List Char) : Option (Rat × List Char) :=
    let sg : Bool × List Char :=
      match r with
      | '+' :: r₂ => (false, r₂)
      | '-' :: r₂ => (true, r₂)
      | _ => (false, r)
    match sg.2 with
    | [] => none
    | c :: _ =>
      match digitVal c with
      | none => none
      | some _ =>
        let t := digitsRun sg.2 0 0
        some (if sg.1 then 1 / pow10 t.1 else pow10 t.1, t.2.2)

/-- Python truthiness (`bool(v)` / the `or` operator's test). -/
def truthy : JVal → Bool
  | .null => false
  | .bool b => b
  | .num n => decide (n ≠ 0)
  | .flt q => decide (q ≠ 0)
  | .str s => !s.isEmpty
  | .arr xs => !xs.isEmpty
  | .obj kvs => !kvs.isEmpty

/-- Python `v or d`. -/
def pyOr (v d : JVal) : JVal := if truthy v then v else d

/-- Python `int(v)`: exact on ints/bools, truncation toward zero on
floats, base-10 literal parsing on strings; TypeError on None/list/dict. -/
def pyInt : JVal → Except PyErr Int
  | .num n => .ok n
  | .flt q => .ok (q.num.tdiv (q.den : Int))
  | .bool b => .ok (if b then 1 else 0)
  | .str s =>
    (match parseIntLit s with
     | some n => .ok n
     | none => .error (.valueError ("invalid literal for int() with base 10: " ++ s)))
  | .null => .error (.typeError "int() argument must be a string, a bytes-like object or a real number, not NoneType")
  | .arr _ => .error (.typeError "int() argument must be a string, a bytes-like object or a real number, not list")
  | .obj _ => .error (.typeError "int() argument must be a string, a bytes-like object or a real number, not dict")

/-- Python `float(v)` (exact Rat model). TypeError on None/list/dict,
ValueError on unparsable strings. -/
def pyFloat : JVal → Except PyErr Rat
  | .num n => .ok (n : Rat)
  | .flt q => .ok q
  | .bool b => .ok (if b then 1 else 0)
  | .str s =>
    (match parseFloatLit s with
     | some q => .ok q
     | none => .error (.valueError ("could not convert string to float: " ++ s)))
  | .null => .error (.typeError "float() argument must be a string or a real number, not NoneType")
  | .arr _ => .error (.typeError "float() argument must be a string or a real number, not list")
  | .obj _ => .error (.typeError "float() argument must be a string or a real number, not dict")

/-- JSON insignificant whitespace. -/
def jSkipWs (cs : List Char) : List Char :=
  cs.dropWhile (fun c => c == ' ' || c == '\t' || c == '\n' || c == '\r')

/-- Value of a `\uXXXX` escape. -/
def uEscVal (a b c d : Char) : Option Nat :=
  match hexVal a, hexVal b, hexVal c, hexVal d with
  | some x, some y, some z, some w => some (4096 * x + 256 * y + 16 * z + w)
  | _, _, _, _ => none

/-- Decode a `\uXXXX` escape starting right after the `u`: yields the
decoded character and the number of characters consumed (4, or 10 when a
surrogate pair is combined). A lone surrogate, which Python keeps as an
unpaired code unit, falls outside Lean's Char and is mapped to U+0000;
no claim touches that corner. -/
def uEscParse : List Char → Option (Char × Nat)
  | a :: b :: c :: d :: rest₃ =>
    (match uEscVal a b c d with
     | none => none
     | some n =>
       if 0xd800 ≤ n ∧ n < 0xdc00 then
         match rest₃ with
         | '\\' :: 'u' :: a₂ :: b₂ :: c₃ :: d₂ :: _ =>
           (match uEscVal a₂ b₂ c₃ d₂ with
            | some m =>
              if 0xdc00 ≤ m ∧ m < 0xe000 then
                some (Char.ofNat (0x10000 + (n - 0xd800) * 1024 + (m - 0xdc00)), 10)
              else some (Char.ofNat n, 4)
            | none => some (Char.ofNat n, 4))
         | _ => some (Char.ofNat n, 4)
       else some (Char.ofNat n, 4))
  | _ => none

/-- JSON string-literal body (after the opening quote), strict mode:
raw control characters are rejected, the standard escapes and `\uXXXX`
(with surrogate pairs) are decoded. Fuel-bounded: each step consumes at
least one character, so the wrapper's fuel is always sufficient. -/
def parseJStrFuel : Nat → List Char → List Char → Option (String × List Char)
  | 0, _, _ => none
  | fuel + 1, cs, acc =>
    match cs with
    | [] => none
    | c :: rest =>
      if c = '"' then some (⟨acc.reverse⟩, rest)
      else if c = '\\' then
        match rest with
        | [] => none
        | e :: rest₂ =>
          if e = '"' then parseJStrFuel fuel rest₂ ('"' :: acc)
          else if e = '\\' then parseJStrFuel fuel rest₂ ('\\' :: acc)
          else if e = '/' then parseJStrFuel fuel rest₂ ('/' :: acc)
          else if e = 'b' then parseJStrFuel fuel rest₂ ('\x08' :: acc)
          else if e = 'f' then parseJStrFuel fuel rest₂ ('\x0c' :: acc)
          else if e = 'n' then parseJStrFuel fuel rest₂ ('\n' :: acc)
          else if e = 'r' then parseJStrFuel fuel rest₂ ('\r' :: acc)
          else if e = 't' then parseJStrFuel fuel rest₂ ('\t' :: acc)
          else if e = 'u' then
            match uEscParse rest₂ with
            | some (ch, k) => parseJStrFuel fuel (rest₂.drop k) (ch :: acc)
            | none => none
          else none
      else if c.toNat < 0x20 then none
      else parseJStrFuel fuel rest (c :: acc)

/-- JSON string-literal body parser (after the opening quote). -/
def parseJStrAux (cs acc : List Char) : Option (String × List Char) :=
  parseJStrFuel (cs.length + 1) cs acc

/-- JSON digit run (no underscores): value, count, rest. -/
def jDigits : List Char → Nat → Nat → Nat × Nat × List Char
  | [], acc, cnt => (acc, cnt, [])
  | c :: rest, acc, cnt =>
    match digitVal c with
    | some d => jDigits rest (10 * acc + d) (cnt + 1)
    | none => (acc, cnt, c :: rest)

/-- JSON integer part: `0` alone or a nonzero digit followed by digits. -/
def jIntPart : List Char → Option (Nat × List Char)
  | [] => none
  | c :: rest =>
    match digitVal c with
    | none => none
    | some d =>
      if c = '0' then some (0, rest)
      else
        let t := jDigits rest d 1
        some (t.1, t.2.2)

/-- JSON number literal. Integer literals yield Python ints, any literal
with a fraction or exponent yields a float (modelled exactly in Rat). -/
def parseJNum (cs₀ : List Char) : Option (JVal × List Char) :=
  let sg : Bool × List Char :=
    match cs₀ with
    | '-' :: r => (true, r)
    | _ => (false, cs₀)
  match jIntPart sg.2 with
  | none => none
  | some (ip, rest₁) =>
    let fr : Option (Bool × Nat × Nat × List Char) :=
      match rest₁ with
      | '.' :: r =>
        (match r with
         | c :: _ =>
           (match digitVal c with
            | some _ => let t := jDigits r 0 0; some (true, t.1, t.2.1, t.2.2)
            | none => none)
         | [] => none)
      | rest => some (false, 0, 0, rest)
    match fr with
    | none => none
    | some (hasFrac, f, fc, rest₂) =>
      let ex : Option (Bool × Rat × List Char) :=
        match rest₂ with
        | 'e' :: r => jExpTail r
        | 'E' :: r => jExpTail r
        | rest => some (false, 1, rest)
      match ex with
      | none => none
      | some (hasExp, scale, rest₃) =>
        if hasFrac ∨ hasExp then
          some (.flt ((if sg.1 then (-1 : Rat) else 1) * ((ip : Rat) + (f : Rat) / pow10 fc) * scale),
                rest₃)
        else
          some (.num (if sg.1 then -(ip : Int) else (ip : Int)), rest₃)
where
  /-- Exponent tail: optional sign then at least one digit. -/
  jExpTail (r : List Char) : Option (Bool × Rat × List Char) :=
    let sg : Bool × List Char :=
      match r with
      | '+' :: r₂ => (false, r₂)
      | '-' :: r₂ => (true, r₂)
      | _ => (false, r)
    match sg.2 with
    | [] => none
    | c :: _ =>
      match digitVal c with
      | none => none
      | some _ =>
        let t := jDigits sg.2 0 0
        some (true, if sg.1 then 1 / pow10 t.1 else pow10 t.1, t.2.2)

/-- Build a JSON object's dict from its pair list: Python dict semantics,
last occurrence of a duplicate key wins. -/
def jObjDict (kvs : List (String × JVal)) : List (String × JVal) :=
  kvs.foldl (fun d kv => upd d kv.1 kv.2) []

/-- Strip the opening quote of a JSON string literal, if present. -/
def quoteSplit : List Char → Option (List Char)
  | '"' :: r => some r
  | _ => none

/-- Consume an expected literal tail (the `rue` of `true` etc). -/
def expectLit (lit cs : List Char) : Option (List Char) :=
  if leadsWith lit cs then some (cs.drop lit.length) else none

/-- What the recursive-descent JSON parser is currently parsing: a value,
the items of an array, or the members of an object. -/
inductive JMode where
  | val
  | arrItems
  | objItems

/-- The result of one parsing mode. -/
inductive JOut where
  | val (v : JVal)
  | items (vs : List JVal)
  | members (kvs : List (String × JVal))

/-- JSON recursive-descent parser (fuel-bounded; the fuel passed by
`jloads` is always sufficient for its input). In `val` mode it expects no
leading whitespace; `arrItems`/`objItems` parse the comma-separated
contents up to the closing bracket/brace. -/
def jParse : Nat → JMode → List Char → Option (JOut × List Char)
  | 0, _, _ => none
  | _ + 1, .val, [] => none
  | fuel + 1, .val, c :: rest =>
    if c = '"' then
      match parseJStrAux rest [] with
      | some (s, r) => some (.val (.str s), r)
      | none => none
    else if c = '[' then
      match jSkipWs rest with
      | ']' :: r₂ => some (.val (.arr []), r₂)
      | r₁ =>
        match jParse fuel .arrItems r₁ with
        | some (.items xs, r₂) => some (.val (.arr xs), r₂)
        | _ => none
    else if c = '\x7b' then
      match jSkipWs rest with
      | '\x7d' :: r₂ => some (.val (.obj []), r₂)
      | r₁ =>
        match jParse fuel .objItems r₁ with
        | some (.members kvs, r₂) => some (.val (.obj (jObjDict kvs)), r₂)
        | _ => none
    else if c = 't' then
      match expectLit ['r', 'u', 'e'] rest with
      | some r => some (.val (.bool true), r)
      | none => none
    else if c = 'f' then
      match expectLit ['a', 'l', 's', 'e'] rest with
      | some r => some (.val (.bool false), r)
      | none => none
    else if c = 'n' then
      match expectLit ['u', 'l', 'l'] rest with
      | some r => some (.val .null, r)
      | none => none
    else if c = '-' ∨ (digitVal c).isSome then
      match parseJNum (c :: rest) with
      | some (v, r) => some (.val v, r)
      | none => none
    else none
  | fuel + 1, .arrItems, cs =>
    match jParse fuel .val cs with
    | some (.val v, r₁) =>
      (match jSkipWs r₁ with
       | ',' :: r₂ =>
         (match jParse fuel .arrItems (jSkipWs r₂) with
          | some (.items vs, r₃) => some (.items (v :: vs), r₃)
          | _ => none)
       | ']' :: r₂ => some (.items [v], r₂)
       | _ => none)
    | _ => none
  | fuel + 1, .objItems, cs =>
    match quoteSplit cs with
    | none => none
    | some r₀ =>
      match parseJStrAux r₀ [] with
      | none => none
      | some (k, r₁) =>
        match jSkipWs r₁ with
        | ':' :: r₂ =>
          (match jParse fuel .val (jSkipWs r₂) with
           | some (.val v, r₃) =>
             (match jSkipWs r₃ with
              | ',' :: r₄ =>
                (match jParse fuel .objItems (jSkipWs r₄) with
                 | some (.members kvs, r₅) => some (.members ((k, v) :: kvs), r₅)
                 | _ => none)
              | '\x7d' :: r₄ => some (.members [(k, v)], r₄)
              | _ => none)
           | _ => none)
        | _ => none

/-- JSON value parser: `jParse` in value mode. -/
def jParseVal (fuel : Nat) (cs : List Char) : Option (JVal × List Char) :=
  match jParse fuel .val cs with
  | some (.val v, r) => some (v, r)
  | _ => none

/-- Python `json.loads` (strict). Parse failures are a JSONDecodeError,
i.e. a ValueError (messages abbreviated relative to CPython's, which also
carry position information). -/
def jloads (s : String) : Except PyErr JVal :=
  match jParseVal (2 * s.length + 4) (jSkipWs s.data) with
  | none => .error (.valueError "Expecting value")
  | some (v, rest) =>
    if (jSkipWs rest).isEmpty then .ok v
    else .error (.valueError "Extra data")

/-- A `\uXXXX` escape sequence (lowercase hex, as json.dumps emits). -/
def uEsc4 (n : Nat) : List Char :=
  ['\\', 'u', hexDigitChar (n / 4096 % 16), hexDigitChar (n / 256 % 16),
   hexDigitChar (n / 16 % 16), hexDigitChar (n % 16)]

/-- json.dumps escaping of one character (default ensure_ascii=True):
printable ASCII other than quote and backslash is emitted verbatim,
the named escapes are used where they exist, everything else becomes
`\uXXXX` (with surrogate pairs above the BMP). -/
def jsonEscapeChar (c : Char) : List Char :=
  if c = '"' then ['\\', '"']
  else if c = '\\' then ['\\', '\\']
  else if c = '\n' then ['\\', 'n']
  else if c = '\t' then ['\\', 't']
  else if c = '\r' then ['\\', 'r']
  else if c = '\x08' then ['\\', 'b']
  else if c = '\x0c' then ['\\', 'f']
  else if 0x20 ≤ c.toNat ∧ c.toNat ≤ 0x7e then [c]
  else if c.toNat < 0x10000 then uEsc4 c.toNat
  else uEsc4 (0xd800 + (c.toNat - 0x10000) / 1024) ++ uEsc4 (0xdc00 + (c.toNat - 0x10000) % 1024)

/-- json.dumps of one string: escaped content between quotes. -/
def quoteChars (s : String) : List Char :=
  '"' :: (s.data.map jsonEscapeChar).flatten ++ ['"']

/-- The comma-space separated (default separator) join of dumped
strings, as json.dumps produces between the brackets. -/
def encTokens : List String → List Char
  | [] => []
  | [t] => quoteChars t
  | t :: t₂ :: ts => quoteChars t ++ ',' :: ' ' :: encTokens (t₂ :: ts)

/-- `json.dumps(items)` for a list of strings. -/
def dumpsStrList (l : List String) : String :=
  ⟨'[' :: (encTokens l ++ [']'])⟩

/-- Characters that json.dumps emits verbatim inside a string literal:
printable ASCII other than the quote and the backslash. -/
def jsonSafeChar (c : Char) : Bool :=
  decide (0x20 ≤ c.toNat) && decide (c.toNat ≤ 0x7e) && !(c == '"') && !(c == '\\')

/-- A string all of whose characters are emitted verbatim by json.dumps. -/
def jsonSafeStr (s : String) : Bool := s.data.all jsonSafeChar

/-- The dict returned by verify_telegram_init_data on success. -/
structure Identity where
  telegram_user : JVal
  telegram_user_id : Int
  username : JVal
  first_name : JVal
  last_name : JVal

/-- An HMAC implementation: key bytes and message bytes to digest bytes.
webapp.py always uses hmac.new(..., hashlib.sha256), whose digests have
32 bytes; the functions below are parametric in the primitive. -/
def Hmac : Type := List Nat → List Nat → List Nat

/-- `received_hash = pairs.pop("hash", "")`: the popped hash value. -/
def popHashVal (pairs0 : List (String × String)) : String :=
  (alook "hash" pairs0).getD ""

/-- The dict after `pairs.pop("hash", "")`: every non-hash pair. -/
def dropHash (pairs0 : List (String × String)) : List (String × String) :=
  pairs0.filter (fun p => decide (p.1 ≠ "hash"))

/-- webapp.py lines 46-47: derive the secret key
`HMAC(key="WebAppData", msg=bot_token)` and compute the lowercase-hex
HMAC of the data-check string built from the remaining pairs. -/
def deriveCalc (hm : Hmac) (botToken : String) (pairs : List (String × String)) : String :=
  hexLower (hm (hm (strBytes "WebAppData") (strBytes botToken)) (strBytes (dataCheckString pairs)))

/-- webapp.py lines 52-64: the user-extraction tail run after the
signature comparison succeeded. `json.loads` errors, `int(None)` and
`.get` on a non-dict value escape unclassified. -/
def verifyUser (pairs : List (String × String)) : Except PyErr Identity :=
  match alook "user" pairs with
  | none => .error (.http 401 "No user in initData")
  | some userRaw =>
    if userRaw = "" then .error (.http 401 "No user in initData")
    else
      match jloads userRaw with
      | .error e => .error e
      | .ok user =>
        match user with
        | .obj kvs =>
          (match pyInt ((alook "id" kvs).getD .null) with
           | .error e => .error e
           | .ok uid =>
             .ok { telegram_user := user
                   telegram_user_id := uid
                   username := (alook "username" kvs).getD .null
                   first_name := (alook "first_name" kvs).getD .null
                   last_name := (alook "last_name" kvs).getD .null })
        | _ => .error (.attributeError "user object is not a dict and has no attribute get")

/-- `str.isascii()` in the sense hmac.compare_digest cares about: every
character below U+0080. -/
def asciiOnly (s : String) : Bool := s.data.all (fun c => decide (c.toNat < 128))

/-- hmac.compare_digest on str arguments: constant-time equality when
both strings are ASCII; CPython raises
`TypeError: comparing strings with non-ASCII characters is not supported`
when either side has a non-ASCII character. -/
def compare_digest (a b : String) : Except PyErr Bool :=
  if asciiOnly a && asciiOnly b then .ok (decide (a = b))
  else .error (.typeError "comparing strings with non-ASCII characters is not supported")

/-- The signature-check and user-extraction part of
verify_telegram_init_data, acting on the already-built dict of decoded
key/value pairs (webapp.py lines 41-64): compare_digest's TypeError on a
non-ASCII received hash escapes unclassified, ahead of the 401. -/
def verifyDict (hm : Hmac) (botToken : String) (pairs0 : List (String × String)) :
    Except PyErr Identity :=
  match compare_digest (deriveCalc hm botToken (dropHash pairs0)) (popHashVal pairs0) with
  | .error e => .error e
  | .ok false => .error (.http 401 "Bad initData signature")
  | .ok true => verifyUser (dropHash pairs0)

/-- verify_telegram_init_data (webapp.py lines 33-64). -/
def verify_telegram_init_data (hm : Hmac) (botToken : String) (initData : String) :
    Except PyErr Identity :=
  if initData.isEmpty || !(strContains initData "hash=") then
    .error (.http 401 "Missing initData")
  else verifyDict hm botToken (dictOfPairs (parseQsl initData))

/-- The non-hash decoded pairs of a payload. -/
def nonHashPairs (p : String) : List (String × String) :=
  dropHash (dictOfPairs (parseQsl p))

/-- The received hash of a payload. -/
def receivedOf (p : String) : String :=
  popHashVal (dictOfPairs (parseQsl p))

/-- The canonical check-string the code signs for a payload. -/
def checkStringOf (p : String) : String := dataCheckString (nonHashPairs p)

/-- The lowercase-hex HMAC the code compares against the received hash. -/
def calcOf (hm : Hmac) (botToken p : String) : String :=
  deriveCalc hm botToken (nonHashPairs p)

/-- The int() of the embedded user object's id field, when the payload
carries a JSON-object user whose id converts. -/
def embeddedIdOf (p : String) : Option Int :=
  match alook "user" (nonHashPairs p) with
  | none => none
  | some raw =>
    match jloads raw with
    | .ok (.obj kvs) =>
      (match pyInt ((alook "id" kvs).getD .null) with
       | .ok n => some n
       | .error _ => none)
    | _ => none

/-- A stand-in HMAC primitive for concrete witnesses: constant all-zero
32-byte digests (the shape of every SHA-256-based digest). -/
def hmZero : Hmac := fun _ _ => List.replicate 32 0

/-- A concrete verified identity, for store witnesses. -/
def idU (n : Int) : Identity := ⟨.null, n, .null, .null, .null⟩

/-- The 64 zero hex digits: hmZero's digest rendered by hexdigest. -/
def z64 : String := "0000000000000000000000000000000000000000000000000000000000000000"

/-- The concrete DCA request body from the spec's example:
ticker NVDA with levels text "15:15 25:25 35:40". -/
def nvdaLevelsBody : List (String × JVal) :=
  [("ticker", JVal.str "NVDA"), ("levels", JVal.str "15:15 25:25 35:40")]

/-- Refinement comparison: the spec reads each stored DCA level as a
structured (drop_pct, amount) pair of decimals; this recognizes a JSON
value of that shape. -/
def specLevelPair : JVal → Option (Rat × Rat)
  | .arr [x, y] =>
    (match x, y with
     | .num a, .num b => some ((a : Rat), (b : Rat))
     | .num a, .flt b => some ((a : Rat), b)
     | .flt a, .num b => some (a, (b : Rat))
     | .flt a, .flt b => some (a, b)
     | _, _ => none)
  | _ => none

/-! ## The configuration store

The database state is modelled as association lists keyed by the natural
keys of the tables created in init_db. Each endpoint takes the verified
Identity (the claims all start from an authenticated user) and the
request body as a parsed JSON dict, and returns the new state paired with
its outcome, so that the state mutations already performed before an
exception are preserved, exactly as with autocommit connections. -/

/-- One row of the users table (the key, telegram_user_id, is the map
key; timestamps are irrelevant to every claim and omitted). -/
structure UserRow where
  username : JVal
  first_name : JVal
  last_name : JVal
  weekly_budget : Rat
  dip_budget : Rat

/-- The persistent state: users, alerts, dca_rules and settings tables
(monday_plan is untouched by the claims). -/
structure DB where
  users : List (Int × UserRow)
  alerts : List ((Int × String) × (Rat × Bool))
  dca : List ((Int × String) × String)
  settings : List (Int × String)

/-- The empty database, as created by init_db. -/
def DB.empty : DB := ⟨[], [], [], []⟩

/-- upsert_user: INSERT ... ON CONFLICT DO UPDATE on the users table;
refreshes the mirrored profile fields, keeps existing budgets, and
creates the row with zero budgets when absent. -/
def upsert_user (st : DB) (u : Identity) : DB :=
  let row : UserRow :=
    match alook u.telegram_user_id st.users with
    | some old => { old with username := u.username, first_name := u.first_name,
                             last_name := u.last_name }
    | none => ⟨u.username, u.first_name, u.last_name, 0, 0⟩
  { st with users := upd st.users u.telegram_user_id row }

/-- `body.get(key)` on a request body (absent keys give None). -/
def bodyGet (body : List (String × JVal)) (k : String) : JVal :=
  (alook k body).getD .null

/-- `(body.get(key) or "").strip()...`: the string coercion pattern used
for ticker/levels/order fields. A falsy value becomes the empty string; a
truthy non-string has no .strip() and raises AttributeError. -/
def bodyGetStr (body : List (String × JVal)) (k : String) : Except PyErr String :=
  match pyOr (bodyGet body k) (.str "") with
  | .str s => .ok s
  | _ => .error (.attributeError "value has no attribute strip")

/-- set_budget (POST /api/budget, webapp.py lines 668-683): parses both
budget fields with `float(body.get(k, 0) or 0)` and UPDATEs the user's
row. There is no validation: any parsable value, negative ones included,
is stored verbatim; an unparsable one raises the float() error after the
upsert_user write. -/
def set_budget (st : DB) (u : Identity) (body : List (String × JVal)) :
    DB × Except PyErr (Rat × Rat) :=
  let st₁ := upsert_user st u
  match pyFloat (pyOr (bodyGet body "weekly_budget") (.num 0)) with
  | .error e => (st₁, .error e)
  | .ok weekly =>
    match pyFloat (pyOr (bodyGet body "dip_budget") (.num 0)) with
    | .error e => (st₁, .error e)
    | .ok dip =>
      let users₂ :=
        match alook u.telegram_user_id st₁.users with
        | some row =>
          upd st₁.users u.telegram_user_id
            { row with weekly_budget := weekly, dip_budget := dip }
        | none => st₁.users
      ({ st₁ with users := users₂ }, .ok (weekly, dip))

/-- list_alerts (GET /api/alerts, webapp.py lines 686-699): the user's
alert rows as (ticker, drop_pct, enabled), ordered by ticker ascending. -/
def list_alerts (st : DB) (u : Identity) : DB × List (String × Rat × Bool) :=
  let st₁ := upsert_user st u
  let rows := st₁.alerts.filter (fun r => decide (r.1.1 = u.telegram_user_id))
  let items := (sortLe (fun a b => strLe a.1.2 b.1.2) rows).map
    (fun r => (r.1.2, r.2.1, r.2.2))
  (st₁, items)

/-- upsert_alert (POST /api/alerts, webapp.py lines 702-723). -/
def upsert_alert (st : DB) (u : Identity) (body : List (String × JVal)) :
    DB × Except PyErr Unit :=
  let st₁ := upsert_user st u
  match bodyGetStr body "ticker" with
  | .error e => (st₁, .error e)
  | .ok t₀ =>
    let ticker := pyUpper (pyStrip t₀)
    match pyFloat (pyOr (bodyGet body "drop_pct") (.num 0)) with
    | .error e => (st₁, .error e)
    | .ok drop_pct =>
      let enabled := truthy ((alook "enabled" body).getD (.bool true))
      if ticker = "" then (st₁, .error (.http 400 "Missing ticker"))
      else
        ({ st₁ with alerts := upd st₁.alerts (u.telegram_user_id, ticker) (drop_pct, enabled) },
         .ok ())

/-- parse_levels (webapp.py lines 737-743): split the levels text on
commas/whitespace and require a `:` in every token; the first bad token
raises HTTPException 400. -/
def parse_levels (levels_str : String) : Except PyErr (List String) :=
  let tokens := pyTokens levels_str
  match tokens.find? (fun t => !(t.data.contains ':')) with
  | some tok => .error (.http 400 ("Bad level format: " ++ tok ++ " (use drop:amount)"))
  | none => .ok tokens
where
  /-- `[x.strip() for x in s.replace(",", " ").split() if x.strip()]`. -/
  pyTokens (s : String) : List String :=
    (wsSplit (s.data.map (fun c => if c = ',' then ' ' else c))).filterMap
      (fun w => let t := pyStrip ⟨w⟩; if t = "" then none else some t)
  /-- `str.split()` with no argument: maximal runs of non-whitespace. -/
  wsSplit : List Char → List (List Char)
  | [] => []
  | c :: rest =>
    if isPyWs c then wsSplit rest
    else
      match wsSplit rest with
      | [] => [[c]]
      | w :: ws =>
        match rest with
        | [] => [[c]]
        | r :: _ => if isPyWs r then [c] :: w :: ws else (c :: w) :: ws

/-- list_dca (GET /api/dca, webapp.py lines 746-766): the user's DCA rows
ordered by ticker, each levels_json decoded with json.loads (falling back
to the empty list on decode errors). -/
def list_dca (st : DB) (u : Identity) : DB × List (String × JVal) :=
  let st₁ := upsert_user st u
  let rows := st₁.dca.filter (fun r => decide (r.1.1 = u.telegram_user_id))
  let items := (sortLe (fun a b => strLe a.1.2 b.1.2) rows).map
    (fun r => (r.1.2, match jloads r.2 with | .ok v => v | .error _ => .arr []))
  (st₁, items)

/-- upsert_dca (POST /api/dca, webapp.py lines 769-791): validates the
ticker and the levels text, then stores json.dumps of the token list;
parse_levels raises before the dca_rules write happens. -/
def upsert_dca (st : DB) (u : Identity) (body : List (String × JVal)) :
    DB × Except PyErr Unit :=
  let st₁ := upsert_user st u
  match bodyGetStr body "ticker" with
  | .error e => (st₁, .error e)
  | .ok t₀ =>
    let ticker := pyUpper (pyStrip t₀)
    match bodyGetStr body "levels" with
    | .error e => (st₁, .error e)
    | .ok l₀ =>
      let levels_str := pyStrip l₀
      if ticker = "" then (st₁, .error (.http 400 "Missing ticker"))
      else
        match parse_levels levels_str with
        | .error e => (st₁, .error e)
        | .ok levels =>
          ({ st₁ with dca := upd st₁.dca (u.telegram_user_id, ticker) (dumpsStrList levels) },
           .ok ())

/-- get_priority (GET /api/priority, webapp.py lines 854-869): the stored
priority_json decoded with json.loads; a missing row or a decode error
gives the empty list. -/
def get_priority (st : DB) (u : Identity) : DB × JVal :=
  let st₁ := upsert_user st u
  match alook u.telegram_user_id st₁.settings with
  | none => (st₁, .arr [])
  | some pj =>
    (st₁, match jloads pj with | .ok v => v | .error _ => .arr [])

/-- The token list set_priority builds from the order text:
`[x.strip().upper() for x in order.replace(",", " ").split() if x.strip()]`. -/
def priorityTokens (order : String) : List String :=
  (parse_levels.wsSplit (order.data.map (fun c => if c = ',' then ' ' else c))).filterMap
    (fun w => let t := pyStrip ⟨w⟩; if t = "" then none else some (pyUpper t))

/-- set_priority (POST /api/priority, webapp.py lines 872-889): upserts
json.dumps of the upper-cased token list into settings. -/
def set_priority (st : DB) (u : Identity) (body : List (String × JVal)) :
    DB × Except PyErr (List String) :=
  let st₁ := upsert_user st u
  match bodyGetStr body "order" with
  | .error e => (st₁, .error e)
  | .ok o₀ =>
    let order := pyStrip o₀
    let items := priorityTokens order
    ({ st₁ with settings := upd st₁.settings u.telegram_user_id (dumpsStrList items) },
     .ok items)

/-! ## Association-list lemmas -/

theorem alook_upd_self {κ ν : Type} [DecidableEq κ] (l : List (κ × ν)) (k : κ) (v : ν) :
    alook k (upd l k v) = some v := by
  induction l with
  | nil => simp [upd, alook]
  | cons p rest ih =>
    obtain ⟨k', v'⟩ := p
    by_cases h : k' = k
    · simp [upd, h, alook]
    · simp [upd, h, alook, ih]

theorem alook_upd_ne {κ ν : Type} [DecidableEq κ] (l : List (κ × ν)) (k q : κ) (v : ν)
    (h : q ≠ k) : alook q (upd l k v) = alook q l := by
  have h' : ¬ k = q := fun e => h e.symm
  induction l with
  | nil => simp [upd, alook, h']
  | cons p rest ih =>
    obtain ⟨k', v'⟩ := p
    by_cases hk : k' = k
    · subst hk
      simp [upd, alook, h']
    · simp [upd, hk, alook, ih]

theorem mem_upd_self {κ ν : Type} [DecidableEq κ] (l : List (κ × ν)) (k : κ) (v : ν) :
    (k, v) ∈ upd l k v := by
  induction l with
  | nil => simp [upd]
  | cons p rest ih =>
    obtain ⟨k', v'⟩ := p
    by_cases h : k' = k
    · simp [upd, h]
    · simp [upd, h, ih]

theorem mem_keys_upd {κ ν : Type} [DecidableEq κ] (l : List (κ × ν)) (k x : κ) (v : ν) :
    x ∈ (upd l k v).map Prod.fst → x ∈ l.map Prod.fst ∨ x = k := by
  induction l with
  | nil => intro h; simpa [upd] using h
  | cons p rest ih =>
    intro h
    obtain ⟨k', v'⟩ := p
    by_cases hk : k' = k
    · subst hk
      simp only [upd, if_pos, List.map_cons, List.mem_cons] at h
      simp only [List.map_cons, List.mem_cons]
      rcases h with h | h
      · exact Or.inr h
      · exact Or.inl (Or.inr h)
    · simp only [upd, if_neg hk, List.map_cons, List.mem_cons] at h ⊢
      rcases h with h | h
      · exact Or.inl (Or.inl h)
      · rcases ih h with h₂ | h₂
        · exact Or.inl (Or.inr h₂)
        · exact Or.inr h₂

theorem nodup_keys_upd {κ ν : Type} [DecidableEq κ] (l : List (κ × ν)) (k : κ) (v : ν) :
    (l.map Prod.fst).Nodup → ((upd l k v).map Prod.fst).Nodup := by
  induction l with
  | nil => intro _; simp [upd]
  | cons p rest ih =>
    intro h
    obtain ⟨k', v'⟩ := p
    simp only [List.map_cons, List.nodup_cons] at h
    by_cases hk : k' = k
    · subst hk
      simpa [upd, List.nodup_cons] using h
    · simp only [upd, if_neg hk, List.map_cons, List.nodup_cons]
      refine ⟨fun hmem => ?_, ih h.2⟩
      rcases mem_keys_upd rest k k' v hmem with h₂ | h₂
      · exact h.1 h₂
      · exact hk h₂

theorem keys_not_mem_countP {κ ν : Type} [DecidableEq κ] (l : List (κ × ν)) (k : κ) :
    k ∉ l.map Prod.fst → l.countP (fun p => decide (p.1 = k)) = 0 := by
  induction l with
  | nil => intro _; rfl
  | cons p rest ih =>
    intro h
    obtain ⟨k', v'⟩ := p
    simp only [List.map_cons, List.mem_cons, not_or] at h
    have h1 : ¬ k' = k := fun e => h.1 e.symm
    simp [List.countP_cons, h1, ih h.2]

theorem countP_key_upd {κ ν : Type} [DecidableEq κ] (l : List (κ × ν)) (k : κ) (v : ν) :
    (l.map Prod.fst).Nodup → (upd l k v).countP (fun p => decide (p.1 = k)) = 1 := by
  induction l with
  | nil => intro _; simp [upd]
  | cons p rest ih =>
    intro h
    obtain ⟨k', v'⟩ := p
    simp only [List.map_cons, List.nodup_cons] at h
    by_cases hk : k' = k
    · subst hk
      simp [upd, List.countP_cons, keys_not_mem_countP rest k' h.1]
    · simp [upd, hk, List.countP_cons, ih h.2]

theorem filter_ne_upd {ν : Type} (l : List (String × ν)) (k : String) (v : ν) :
    (upd l k v).filter (fun p => decide (p.1 ≠ k)) = l.filter (fun p => decide (p.1 ≠ k)) := by
  induction l with
  | nil => simp [upd]
  | cons p rest ih =>
    obtain ⟨k', v'⟩ := p
    by_cases hk : k' = k
    · subst hk
      simp [upd, List.filter_cons]
    · simp only [upd, if_neg hk, List.filter_cons, ih]

theorem alook_perm {κ ν : Type} [DecidableEq κ] {l₁ l₂ : List (κ × ν)} (h : l₁.Perm l₂) :
    (l₁.map Prod.fst).Nodup → ∀ k, alook k l₁ = alook k l₂ := by
  induction h with
  | nil => intro _ _; rfl
  | cons x h ih =>
    intro hn k
    obtain ⟨kx, vx⟩ := x
    simp only [List.map_cons, List.nodup_cons] at hn
    by_cases hk : kx = k
    · simp [alook, hk]
    · simp [alook, hk, ih hn.2 k]
  | swap x y l =>
    intro hn k
    obtain ⟨kx, vx⟩ := x
    obtain ⟨ky, vy⟩ := y
    simp only [List.map_cons, List.nodup_cons, List.mem_cons, not_or] at hn
    by_cases hky : ky = k
    · subst hky
      have : ¬ kx = ky := fun e => hn.1.1 e.symm
      simp [alook, this]
    · by_cases hkx : kx = k
      · simp [alook, hkx, hky]
      · simp [alook, hkx, hky]
  | trans h₁ h₂ ih₁ ih₂ =>
    intro hn k
    exact (ih₁ hn k).trans (ih₂ ((h₁.map Prod.fst).nodup hn) k)

theorem nodup_keys_dictFold (l : List (String × String)) :
    ∀ d : List (String × String), (d.map Prod.fst).Nodup →
      (((l.foldl (fun d kv => upd d kv.1 kv.2) d)).map Prod.fst).Nodup := by
  induction l with
  | nil => intro d hd; simpa using hd
  | cons p rest ih =>
    intro d hd
    exact ih (upd d p.1 p.2) (nodup_keys_upd d p.1 p.2 hd)

theorem nodup_keys_dictOfPairs (l : List (String × String)) :
    ((dictOfPairs l).map Prod.fst).Nodup :=
  nodup_keys_dictFold l [] (by simp)

/-! ## Sorting lemmas -/

theorem insertLe_perm {α : Type} (le : α → α → Bool) (x : α) (l : List α) :
    (insertLe le x l).Perm (x :: l) := by
  induction l with
  | nil => exact List.Perm.refl _
  | cons y ys ih =>
    by_cases h : le x y
    · simp [insertLe, h]
    · simp only [insertLe, if_neg h]
      exact (ih.cons y).trans (List.Perm.swap x y ys)

theorem sortLe_perm {α : Type} (le : α → α → Bool) (l : List α) :
    (sortLe le l).Perm l := by
  induction l with
  | nil => exact List.Perm.refl _
  | cons x xs ih =>
    exact (insertLe_perm le x (sortLe le xs)).trans (ih.cons x)

theorem listLeChar_total (a b : List Char) :
    listLeChar a b = true ∨ listLeChar b a = true := by
  induction a generalizing b with
  | nil => exact Or.inl rfl
  | cons x xs ih =>
    cases b with
    | nil => exact Or.inr rfl
    | cons y ys =>
      by_cases h : x = y
      · subst h
        simpa [listLeChar] using ih ys
      · have h' : ¬ y = x := fun e => h e.symm
        rcases lt_or_gt_of_ne h with hlt | hgt
        · refine Or.inl ?_
          simp only [listLeChar, if_neg h]
          exact decide_eq_true hlt
        · refine Or.inr ?_
          simp only [listLeChar, if_neg h']
          exact decide_eq_true hgt

theorem listLeChar_trans {a b c : List Char} (h₁ : listLeChar a b = true)
    (h₂ : listLeChar b c = true) : listLeChar a c = true := by
  induction a generalizing b c with
  | nil => rfl
  | cons x xs ih =>
    cases b with
    | nil => simp [listLeChar] at h₁
    | cons y ys =>
      cases c with
      | nil => simp [listLeChar] at h₂
      | cons z zs =>
        by_cases hxy : x = y
        · subst hxy
          by_cases hxz : x = z
          · subst hxz
            simp only [listLeChar, if_pos rfl] at h₁ h₂ ⊢
            exact ih h₁ h₂
          · simp only [listLeChar, if_pos rfl] at h₁
            simp only [listLeChar, if_neg hxz] at h₂ ⊢
            exact h₂
        · simp only [listLeChar, if_neg hxy, decide_eq_true_iff] at h₁
          by_cases hyz : y = z
          · subst hyz
            simp only [listLeChar, if_neg hxy]
            exact decide_eq_true h₁
          · simp only [listLeChar, if_neg hyz, decide_eq_true_iff] at h₂
            have hxz : x < z := lt_trans h₁ h₂
            simp only [listLeChar, if_neg (ne_of_lt hxz)]
            exact decide_eq_true hxz

theorem listLeChar_antisymm {a b : List Char} (h₁ : listLeChar a b = true)
    (h₂ : listLeChar b a = true) : a = b := by
  induction a generalizing b with
  | nil =>
    cases b with
    | nil => rfl
    | cons y ys => simp [listLeChar] at h₂
  | cons x xs ih =>
    cases b with
    | nil => simp [listLeChar] at h₁
    | cons y ys =>
      by_cases hxy : x = y
      · subst hxy
        simp only [listLeChar, if_pos rfl] at h₁ h₂
        exact congrArg (x :: ·) (ih h₁ h₂)
      · simp only [listLeChar, if_neg hxy, decide_eq_true_iff] at h₁
        simp only [listLeChar, if_neg (fun e : y = x => hxy e.symm), decide_eq_true_iff] at h₂
        exact absurd h₂ (not_lt_of_gt h₁)

theorem strLe_total (a b : String) : strLe a b = true ∨ strLe b a = true :=
  listLeChar_total a.data b.data

theorem strLe_trans {a b c : String} (h₁ : strLe a b = true) (h₂ : strLe b c = true) :
    strLe a c = true :=
  listLeChar_trans h₁ h₂

theorem strLe_antisymm {a b : String} (h₁ : strLe a b = true) (h₂ : strLe b a = true) :
    a = b := by
  cases a with
  | mk da =>
    cases b with
    | mk db => exact congrArg String.mk (listLeChar_antisymm h₁ h₂)

instance instIsAntisymmStrLe : IsAntisymm String (fun a b => strLe a b = true) :=
  ⟨fun _ _ h₁ h₂ => strLe_antisymm h₁ h₂⟩

theorem mem_insertLe {α : Type} (le : α → α → Bool) (x z : α) (l : List α) :
    z ∈ insertLe le x l ↔ z = x ∨ z ∈ l := by
  rw [(insertLe_perm le x l).mem_iff]
  simp

theorem sorted_insertLe (x : String) (l : List String) :
    l.Sorted (fun a b => strLe a b = true) →
    (insertLe strLe x l).Sorted (fun a b => strLe a b = true) := by
  induction l with
  | nil => intro _; simp [insertLe]
  | cons y ys ih =>
    intro h
    rw [List.sorted_cons] at h
    by_cases hle : strLe x y
    · simp only [insertLe, if_pos hle, List.sorted_cons]
      refine ⟨fun b hb => ?_, h.1, h.2⟩
      rcases List.mem_cons.mp hb with hb | hb
      · exact hb ▸ hle
      · exact strLe_trans hle (h.1 b hb)
    · simp only [insertLe, if_neg hle, List.sorted_cons]
      refine ⟨fun b hb => ?_, ih h.2⟩
      rcases (mem_insertLe strLe x b ys).mp hb with hb | hb
      · rw [hb]
        rcases strLe_total x y with ht | ht
        · exact absurd ht hle
        · exact ht
      · exact h.1 b hb

theorem sortLe_sorted (l : List String) :
    (sortLe strLe l).Sorted (fun a b => strLe a b = true) := by
  induction l with
  | nil => simp [sortLe]
  | cons x xs ih => exact sorted_insertLe x (sortLe strLe xs) ih

theorem sortLe_eq_of_perm {l₁ l₂ : List String} (h : l₁.Perm l₂) :
    sortLe strLe l₁ = sortLe strLe l₂ :=
  List.eq_of_perm_of_sorted ((sortLe_perm strLe l₁).trans (h.trans (sortLe_perm strLe l₂).symm))
    (sortLe_sorted l₁) (sortLe_sorted l₂)

/-! ## JSON round-trip lemmas -/

theorem jsonEscapeChar_safe {c : Char} (h : jsonSafeChar c = true) :
    jsonEscapeChar c = [c] := by
  simp only [jsonSafeChar, Bool.and_eq_true, decide_eq_true_iff, Bool.not_eq_true',
    beq_eq_false_iff_ne, ne_eq] at h
  obtain ⟨⟨⟨h₁, h₂⟩, h₃⟩, h₄⟩ := h
  have hn : ¬ c = '\n' := by intro e; rw [e] at h₁; exact absurd h₁ (by decide)
  have ht : ¬ c = '\t' := by intro e; rw [e] at h₁; exact absurd h₁ (by decide)
  have hr : ¬ c = '\r' := by intro e; rw [e] at h₁; exact absurd h₁ (by decide)
  have hb : ¬ c = '\x08' := by intro e; rw [e] at h₁; exact absurd h₁ (by decide)
  have hf : ¬ c = '\x0c' := by intro e; rw [e] at h₁; exact absurd h₁ (by decide)
  simp only [jsonEscapeChar, if_neg h₃, if_neg h₄, if_neg hn, if_neg ht, if_neg hr,
    if_neg hb, if_neg hf, if_pos (And.intro h₁ h₂)]

theorem map_escape_safe (cs : List Char) (h : cs.all jsonSafeChar = true) :
    (cs.map jsonEscapeChar).flatten = cs := by
  induction cs with
  | nil => rfl
  | cons c rest ih =>
    simp only [List.all_cons, Bool.and_eq_true] at h
    simp [jsonEscapeChar_safe h.1, ih h.2]

theorem quoteChars_safe {t : String} (h : jsonSafeStr t = true) :
    quoteChars t = '"' :: (t.data ++ ['"']) := by
  unfold quoteChars
  rw [map_escape_safe t.data h]
  simp

theorem parseJStrFuel_safe (cs : List Char) (h : cs.all jsonSafeChar = true) :
    ∀ (fuel : Nat) (acc rest : List Char), cs.length + 1 ≤ fuel →
    parseJStrFuel fuel (cs ++ '"' :: rest) acc = some (⟨acc.reverse ++ cs⟩, rest) := by
  induction cs with
  | nil =>
    intro fuel acc rest hf
    obtain ⟨f, rfl⟩ : ∃ f, fuel = f + 1 := ⟨fuel - 1, by omega⟩
    rw [List.nil_append, parseJStrFuel.eq_def]
    simp
  | cons c cs ih =>
    intro fuel acc rest hf
    obtain ⟨f, rfl⟩ : ∃ f, fuel = f + 1 := ⟨fuel - 1, by omega⟩
    simp only [List.all_cons, Bool.and_eq_true] at h
    have hc := h.1
    simp only [jsonSafeChar, Bool.and_eq_true, decide_eq_true_iff, Bool.not_eq_true',
      beq_eq_false_iff_ne, ne_eq] at hc
    obtain ⟨⟨⟨h₁, h₂⟩, h₃⟩, h₄⟩ := hc
    have hctl : ¬ c.toNat < 0x20 := by omega
    rw [List.cons_append, parseJStrFuel.eq_def]
    simp only [if_neg h₃, if_neg h₄, if_neg hctl]
    rw [ih h.2 f (c :: acc) rest (by simp only [List.length_cons] at hf; omega)]
    simp

theorem parseJStr_safe (cs : List Char) (h : cs.all jsonSafeChar = true)
    (acc rest : List Char) :
    parseJStrAux (cs ++ '"' :: rest) acc = some (⟨acc.reverse ++ cs⟩, rest) := by
  unfold parseJStrAux
  refine parseJStrFuel_safe cs h _ acc rest ?_
  simp only [List.length_append, List.length_cons]
  omega

theorem jParse_str (fuel : Nat) (t : String) (h : jsonSafeStr t = true)
    (rest : List Char) :
    jParse (fuel + 1) .val ('"' :: (t.data ++ '"' :: rest)) =
      some (.val (.str t), rest) := by
  rw [jParse.eq_def]
  show (match parseJStrAux (t.data ++ '"' :: rest) [] with
        | some (s, r) => some (JOut.val (.str s), r)
        | none => none) = some (.val (.str t), rest)
  rw [parseJStr_safe t.data h [] rest]
  cases t with
  | mk d => simp

theorem jSkipWs_encTokens_cons (x : String) (xs : List String) (r : List Char) :
    jSkipWs (encTokens (x :: xs) ++ r) = encTokens (x :: xs) ++ r := by
  cases xs with
  | nil => simp [encTokens, quoteChars, jSkipWs]
  | cons y ys => simp [encTokens, quoteChars, jSkipWs]

theorem encTokens_cons_ex (t : String) (ts : List String) (h : jsonSafeStr t = true) :
    ∃ d, encTokens (t :: ts) = '"' :: d := by
  cases ts with
  | nil => exact ⟨t.data ++ ['"'], by simp [encTokens, quoteChars_safe h]⟩
  | cons y ys =>
    exact ⟨(t.data ++ ['"']) ++ ',' :: ' ' :: encTokens (y :: ys),
      by simp [encTokens, quoteChars_safe h]⟩

theorem encTokens_len (l : List String) : l.length ≤ (encTokens l).length := by
  induction l with
  | nil => simp [encTokens]
  | cons t ts ih =>
    cases ts with
    | nil => simp [encTokens, quoteChars]
    | cons y ys =>
      simp only [encTokens, List.length_append, List.length_cons, quoteChars] at ih ⊢
      omega

theorem arrItems_enc (ts : List String) : ∀ (t : String) (fuel : Nat) (rest : List Char),
    jsonSafeStr t = true → (∀ x ∈ ts, jsonSafeStr x = true) →
    jParse (ts.length + fuel + 2) .arrItems (encTokens (t :: ts) ++ ']' :: rest) =
      some (.items ((t :: ts).map JVal.str), rest) := by
  induction ts with
  | nil =>
    intro t fuel rest ht _
    simp only [List.length_nil, Nat.zero_add]
    have e : encTokens [t] ++ ']' :: rest = '"' :: (t.data ++ '"' :: ']' :: rest) := by
      simp [encTokens, quoteChars_safe ht]
    rw [e]
    rw [show fuel + 2 = (fuel + 1) + 1 from rfl]
    rw [jParse.eq_def]
    show (match jParse (fuel + 1) .val ('"' :: (t.data ++ '"' :: ']' :: rest)) with
          | some (.val v, r₁) =>
            (match jSkipWs r₁ with
             | ',' :: r₂ =>
               (match jParse (fuel + 1) .arrItems (jSkipWs r₂) with
                | some (.items vs, r₃) => some (JOut.items (v :: vs), r₃)
                | _ => none)
             | ']' :: r₂ => some (JOut.items [v], r₂)
             | _ => none)
          | _ => none) = some (.items [JVal.str t], rest)
    rw [jParse_str fuel t ht (']' :: rest)]
    simp [jSkipWs]
  | cons t₂ ts ih =>
    intro t fuel rest ht hts
    have ht₂ : jsonSafeStr t₂ = true := hts t₂ (List.mem_cons_self _ _)
    have hts' : ∀ x ∈ ts, jsonSafeStr x = true :=
      fun x hx => hts x (List.mem_cons_of_mem t₂ hx)
    have e : encTokens (t :: t₂ :: ts) ++ ']' :: rest =
        '"' :: (t.data ++ '"' :: ',' :: ' ' :: (encTokens (t₂ :: ts) ++ ']' :: rest)) := by
      simp [encTokens, quoteChars_safe ht]
    rw [e]
    have e₂ : (t₂ :: ts).length + fuel + 2 = ((ts.length + fuel + 1) + 1) + 1 := by
      simp only [List.length_cons]; omega
    rw [e₂, jParse.eq_def]
    show (match jParse ((ts.length + fuel + 1) + 1) .val
            ('"' :: (t.data ++ '"' :: ',' :: ' ' :: (encTokens (t₂ :: ts) ++ ']' :: rest))) with
          | some (.val v, r₁) =>
            (match jSkipWs r₁ with
             | ',' :: r₂ =>
               (match jParse ((ts.length + fuel + 1) + 1) .arrItems (jSkipWs r₂) with
                | some (.items vs, r₃) => some (JOut.items (v :: vs), r₃)
                | _ => none)
             | ']' :: r₂ => some (JOut.items [v], r₂)
             | _ => none)
          | _ => none) = some (.items (List.map JVal.str (t :: t₂ :: ts)), rest)
    rw [jParse_str (ts.length + fuel + 1) t ht
      (',' :: ' ' :: (encTokens (t₂ :: ts) ++ ']' :: rest))]
    have e₄ : jSkipWs (',' :: ' ' :: (encTokens (t₂ :: ts) ++ ']' :: rest)) =
        ',' :: ' ' :: (encTokens (t₂ :: ts) ++ ']' :: rest) := by
      simp [jSkipWs]
    have e₅ : jSkipWs (' ' :: (encTokens (t₂ :: ts) ++ ']' :: rest)) =
        encTokens (t₂ :: ts) ++ ']' :: rest := by
      have h₁ := jSkipWs_encTokens_cons t₂ ts (']' :: rest)
      simp only [jSkipWs, List.dropWhile] at h₁ ⊢
      simpa using h₁
    simp only [e₄, e₅]
    rw [show (ts.length + fuel + 1) + 1 = ts.length + fuel + 2 from rfl,
      ih t₂ fuel rest ht₂ hts']
    simp

theorem jloads_dumps (l : List String) (h : ∀ t ∈ l, jsonSafeStr t = true) :
    jloads (dumpsStrList l) = .ok (.arr (l.map .str)) := by
  cases l with
  | nil => rfl
  | cons t ts =>
    have ht : jsonSafeStr t = true := h t (List.mem_cons_self _ _)
    have hts : ∀ x ∈ ts, jsonSafeStr x = true :=
      fun x hx => h x (List.mem_cons_of_mem t hx)
    have hdata : (dumpsStrList (t :: ts)).data = '[' :: (encTokens (t :: ts) ++ [']']) := rfl
    have hle : ts.length + 2 ≤ 2 * (dumpsStrList (t :: ts)).length + 3 := by
      have h₁ := encTokens_len (t :: ts)
      have h₂ : (dumpsStrList (t :: ts)).length = (encTokens (t :: ts)).length + 2 := by
        simp [dumpsStrList, String.length]
      simp only [List.length_cons] at h₁
      omega
    obtain ⟨d, hd⟩ := encTokens_cons_ex t ts ht
    rw [jloads, jParseVal, hdata]
    have hskip : jSkipWs ('[' :: (encTokens (t :: ts) ++ [']'])) =
        '[' :: (encTokens (t :: ts) ++ [']']) := by
      simp [jSkipWs]
    rw [hskip]
    rw [show 2 * (dumpsStrList (t :: ts)).length + 4 =
      (2 * (dumpsStrList (t :: ts)).length + 3) + 1 from rfl]
    rw [jParse.eq_def]
    show (match (match (match jSkipWs (encTokens (t :: ts) ++ [']']) with
            | ']' :: r₂ => some (JOut.val (JVal.arr []), r₂)
            | r₁ =>
              match jParse (2 * (dumpsStrList (t :: ts)).length + 3) JMode.arrItems r₁ with
              | some (JOut.items xs, r₂) => some (JOut.val (JVal.arr xs), r₂)
              | _ => none) with
          | some (JOut.val v, r) => some (v, r)
          | _ => none) with
      | none => Except.error (PyErr.valueError "Expecting value")
      | some (v, rest) =>
        if (jSkipWs rest).isEmpty = true then Except.ok v
        else Except.error (PyErr.valueError "Extra data")) =
      Except.ok (JVal.arr (List.map JVal.str (t :: ts)))
    rw [jSkipWs_encTokens_cons t ts [']']]
    have e₂ : 2 * (dumpsStrList (t :: ts)).length + 3 =
        ts.length + (2 * (dumpsStrList (t :: ts)).length + 1 - ts.length) + 2 := by omega
    have harr : jParse (2 * (dumpsStrList (t :: ts)).length + 3) .arrItems
        (encTokens (t :: ts) ++ [']']) = some (.items ((t :: ts).map JVal.str), []) := by
      rw [show (encTokens (t :: ts) ++ [']'] : List Char) = encTokens (t :: ts) ++ ']' :: []
        from rfl]
      rw [e₂, arrItems_enc ts t _ [] ht hts]
    rw [hd, List.cons_append] at harr
    rw [hd, List.cons_append]
    show (match (match (match jParse (2 * (dumpsStrList (t :: ts)).length + 3) .arrItems
              ('"' :: (d ++ [']'])) with
            | some (.items xs, r₂) => some (JOut.val (JVal.arr xs), r₂)
            | _ => none) with
          | some (.val v, r) => some (v, r)
          | _ => none) with
      | none => Except.error (PyErr.valueError "Expecting value")
      | some (v, rest) =>
        if (jSkipWs rest).isEmpty = true then Except.ok v
        else Except.error (PyErr.valueError "Extra data")) =
      Except.ok (JVal.arr (List.map JVal.str (t :: ts)))
    rw [harr]
    rfl

/-! ## Verifier lemmas -/

theorem verify_unfold (hm : Hmac) (tok p : String)
    (hne : p.isEmpty = false) (hh : strContains p "hash=" = true) :
    verify_telegram_init_data hm tok p =
      match compare_digest (calcOf hm tok p) (receivedOf p) with
      | .error e => .error e
      | .ok false => .error (.http 401 "Bad initData signature")
      | .ok true => verifyUser (nonHashPairs p) := by
  unfold verify_telegram_init_data
  rw [hne, hh]
  exact rfl

theorem nodup_keys_filter {ν : Type} (l : List (String × ν)) (pred : String × ν → Bool)
    (hn : (l.map Prod.fst).Nodup) : ((l.filter pred).map Prod.fst).Nodup :=
  (((List.filter_sublist l : (l.filter pred).Sublist l)).map Prod.fst).nodup hn

theorem dataCheckString_perm {l₁ l₂ : List (String × String)} (h : l₁.Perm l₂)
    (hn : (l₁.map Prod.fst).Nodup) : dataCheckString l₁ = dataCheckString l₂ := by
  unfold dataCheckString
  rw [sortLe_eq_of_perm (h.map Prod.fst)]
  congr 1
  refine List.map_congr_left ?_
  intro k _
  rw [alook_perm h hn k]

theorem verifyUser_eq_of_lookup {pairs₁ pairs₂ : List (String × String)}
    (h : alook "user" pairs₁ = alook "user" pairs₂) :
    verifyUser pairs₁ = verifyUser pairs₂ := by
  unfold verifyUser
  rw [h]

theorem hexLower_length (bs : List Nat) : (hexLower bs).length = 2 * bs.length := by
  induction bs with
  | nil => rfl
  | cons b bs ih =>
    simp only [hexLower, String.length, List.map_cons, List.flatten_cons,
      List.length_append, List.length_cons, List.length_nil] at ih ⊢
    omega

theorem hexDigitChar_ascii : ∀ n, n < 16 → (hexDigitChar n).toNat < 128 := by decide

theorem asciiOnly_hexLower (bs : List Nat) : asciiOnly (hexLower bs) = true := by
  show (List.map (fun b => [hexDigitChar (b / 16 % 16), hexDigitChar (b % 16)]) bs).flatten.all
    (fun c => decide (c.toNat < 128)) = true
  induction bs with
  | nil => rfl
  | cons b bs ih =>
    simp only [List.map_cons, List.flatten_cons, List.all_append, ih, List.all_cons,
      List.all_nil, Bool.and_true]
    rw [decide_eq_true (hexDigitChar_ascii _ (Nat.mod_lt _ (by decide))),
      decide_eq_true (hexDigitChar_ascii _ (Nat.mod_lt _ (by decide)))]
    rfl

/-- The calculated hash the code feeds to compare_digest is lowercase hex,
hence always ASCII. -/
theorem asciiOnly_calcOf (hm : Hmac) (tok p : String) :
    asciiOnly (calcOf hm tok p) = true :=
  asciiOnly_hexLower _

theorem all_set (p : Char → Bool) : ∀ (l : List Char) (j : Nat) (c : Char),
    l.all p = true → p c = true → (l.set j c).all p = true := by
  intro l
  induction l with
  | nil => intro j c _ _; rfl
  | cons x xs ih =>
    intro j c hall hc
    cases j with
    | zero =>
      simp only [List.set_cons_zero, List.all_cons, Bool.and_eq_true] at hall ⊢
      exact ⟨hc, hall.2⟩
    | succ n =>
      simp only [List.set_cons_succ, List.all_cons, Bool.and_eq_true] at hall ⊢
      exact ⟨hall.1, ih n c hall.2 hc⟩

theorem compare_digest_ok_true {a b : String} (h : compare_digest a b = .ok true) :
    a = b := by
  unfold compare_digest at h
  split at h
  · exact of_decide_eq_true (Except.ok.inj h)
  · exact absurd h (by simp)

theorem upsert_user_alerts (st : DB) (u : Identity) :
    (upsert_user st u).alerts = st.alerts := rfl

theorem upsert_user_dca (st : DB) (u : Identity) :
    (upsert_user st u).dca = st.dca := rfl

theorem upsert_user_settings (st : DB) (u : Identity) :
    (upsert_user st u).settings = st.settings := rfl

theorem set_ne_of_get_ne {α : Type} (l : List α) : ∀ (j : Nat) (c : α) (hj : j < l.length),
    c ≠ l.get ⟨j, hj⟩ → l.set j c ≠ l := by
  induction l with
  | nil => intro j c hj; simp at hj
  | cons a tl ih =>
    intro j c hj hc he
    cases j with
    | zero =>
      rw [List.set] at he
      injection he with h1 _
      exact hc h1
    | succ n =>
      rw [List.set] at he
      injection he with _ h2
      exact ih n c (by simpa using hj) (by simpa using hc) h2

/-- A successful verification implies: the guards passed, the computed
hash equals the received one, and the result is the user-extraction
tail's. -/
theorem verify_ok_defs {hm : Hmac} {tok p : String} {i : Identity}
    (hs : verify_telegram_init_data hm tok p = .ok i) :
    p.isEmpty = false ∧ strContains p "hash=" = true ∧
    calcOf hm tok p = receivedOf p ∧ verifyUser (nonHashPairs p) = .ok i := by
  have hne : p.isEmpty = false := by
    cases hpe : p.isEmpty
    · rfl
    · exfalso
      unfold verify_telegram_init_data at hs
      rw [hpe] at hs
      simp at hs
  have hh : strContains p "hash=" = true := by
    cases hhc : strContains p "hash="
    · exfalso
      unfold verify_telegram_init_data at hs
      rw [hhc, hne] at hs
      simp at hs
    · rfl
  rw [verify_unfold hm tok p hne hh] at hs
  cases hcd : compare_digest (calcOf hm tok p) (receivedOf p) with
  | error e =>
    rw [hcd] at hs
    exact absurd hs (by simp)
  | ok b =>
    cases b with
    | false =>
      rw [hcd] at hs
      exact absurd hs (by simp)
    | true =>
      rw [hcd] at hs
      exact ⟨hne, hh, compare_digest_ok_true hcd, hs⟩

/-- A successful user-extraction tail implies the payload carried a
non-empty user value that json-decodes to an object whose id converts,
via int(), to the returned user id. -/
theorem verifyUser_ok {pairs : List (String × String)} {i : Identity}
    (hu : verifyUser pairs = .ok i) :
    ∃ raw kvs, alook "user" pairs = some raw ∧ jloads raw = .ok (.obj kvs) ∧
      pyInt ((alook "id" kvs).getD .null) = .ok i.telegram_user_id := by
  unfold verifyUser at hu
  split at hu
  · exact absurd hu (by simp)
  · next raw heq =>
    split at hu
    · exact absurd hu (by simp)
    · split at hu
      · exact absurd hu (by simp)
      · next user hj =>
        split at hu
        · next kvs =>
          split at hu
          · exact absurd hu (by simp)
          · next uid hp =>
            refine ⟨raw, kvs, heq, hj, ?_⟩
            have hi := Except.ok.inj hu
            rw [hp, ← hi]
        · exact absurd hu (by simp)

theorem pyFloat_no_http (v : JVal) (s : Nat) (det : String) :
    pyFloat v ≠ .error (.http s det) := by
  intro h
  cases v with
  | num n => exact Except.noConfusion h
  | flt q => exact Except.noConfusion h
  | bool b => exact Except.noConfusion h
  | null => exact PyErr.noConfusion (Except.error.inj h)
  | arr xs => exact PyErr.noConfusion (Except.error.inj h)
  | obj kvs => exact PyErr.noConfusion (Except.error.inj h)
  | str t =>
    simp only [pyFloat] at h
    cases e : parseFloatLit t with
    | some q => rw [e] at h; exact Except.noConfusion h
    | none => rw [e] at h; exact PyErr.noConfusion (Except.error.inj h)

/-! ## Claims about the Launch-Data Verifier -/

/-- C4: the claim — every well-formed payload whose received hash differs
from the calculated lowercase-hex HMAC digest is rejected with the
classified 401 bad-signature error — holds whenever the received hash is
ASCII, in particular for every replacement or single-character corruption
of a valid hash by ASCII text; but it is NOT universal: hmac.compare_digest
raises TypeError on non-ASCII strings, so a payload such as "user=x&hash=é"
makes the endpoint die with an unhandled TypeError (surfaced as HTTP 500),
not the classified 401. -/
theorem C4_bad_signature_rejection :
    (∀ (hm : Hmac) (tok p : String),
      p.isEmpty = false → strContains p "hash=" = true →
      asciiOnly (receivedOf p) = true →
      receivedOf p ≠ calcOf hm tok p →
      verify_telegram_init_data hm tok p = .error (.http 401 "Bad initData signature")) ∧
    (∀ (hm : Hmac) (tok p : String) (i : Identity) (h' : String),
      verify_telegram_init_data hm tok p = .ok i → h' ≠ receivedOf p →
      asciiOnly h' = true →
      verifyDict hm tok (upd (dictOfPairs (parseQsl p)) "hash" h') =
        .error (.http 401 "Bad initData signature")) ∧
    (∀ (hm : Hmac) (tok p : String) (i : Identity) (j : Nat) (c : Char)
      (hj : j < (receivedOf p).data.length),
      verify_telegram_init_data hm tok p = .ok i →
      c ≠ (receivedOf p).data.get ⟨j, hj⟩ → c.toNat < 128 →
      verifyDict hm tok
        (upd (dictOfPairs (parseQsl p)) "hash" ⟨(receivedOf p).data.set j c⟩) =
        .error (.http 401 "Bad initData signature")) ∧
    (verify_telegram_init_data hmZero "t" "user=x&hash=é" =
      .error (.typeError "comparing strings with non-ASCII characters is not supported")) ∧
    (∀ (s : Nat) (d m : String), PyErr.typeError m ≠ .http s d) := by
  have part1 : ∀ (hm : Hmac) (tok p : String),
      p.isEmpty = false → strContains p "hash=" = true →
      asciiOnly (receivedOf p) = true →
      receivedOf p ≠ calcOf hm tok p →
      verify_telegram_init_data hm tok p = .error (.http 401 "Bad initData signature") := by
    intro hm tok p hne hh hra hmm
    rw [verify_unfold hm tok p hne hh]
    have hcd : compare_digest (calcOf hm tok p) (receivedOf p) = .ok false := by
      unfold compare_digest
      have hcond : (asciiOnly (calcOf hm tok p) && asciiOnly (receivedOf p)) = true := by
        rw [asciiOnly_calcOf, hra]
        rfl
      rw [if_pos hcond, decide_eq_false (fun e => hmm e.symm)]
    rw [hcd]
  have part2 : ∀ (hm : Hmac) (tok p : String) (i : Identity) (h' : String),
      verify_telegram_init_data hm tok p = .ok i → h' ≠ receivedOf p →
      asciiOnly h' = true →
      verifyDict hm tok (upd (dictOfPairs (parseQsl p)) "hash" h') =
        .error (.http 401 "Bad initData signature") := by
    intro hm tok p i h' hs hne' ha
    obtain ⟨-, -, hcr, -⟩ := verify_ok_defs hs
    have h1 : dropHash (upd (dictOfPairs (parseQsl p)) "hash" h') =
        dropHash (dictOfPairs (parseQsl p)) :=
      filter_ne_upd (dictOfPairs (parseQsl p)) "hash" h'
    have h2 : popHashVal (upd (dictOfPairs (parseQsl p)) "hash" h') = h' := by
      unfold popHashVal
      rw [alook_upd_self]
      rfl
    unfold verifyDict
    rw [h1, h2]
    have hcd : compare_digest (deriveCalc hm tok (dropHash (dictOfPairs (parseQsl p)))) h' =
        .ok false := by
      rw [show deriveCalc hm tok (dropHash (dictOfPairs (parseQsl p))) = calcOf hm tok p
        from rfl]
      unfold compare_digest
      have hcond : (asciiOnly (calcOf hm tok p) && asciiOnly h') = true := by
        rw [asciiOnly_calcOf, ha]
        rfl
      rw [if_pos hcond, decide_eq_false (fun e => hne' (e.symm.trans hcr))]
    rw [hcd]
  refine ⟨part1, part2, ?_, rfl, fun s d m h => PyErr.noConfusion h⟩
  intro hm tok p i j c hj hs hc hca
  have hra : asciiOnly (receivedOf p) = true := by
    obtain ⟨-, -, hcr, -⟩ := verify_ok_defs hs
    rw [← hcr]
    exact asciiOnly_calcOf hm tok p
  refine part2 hm tok p i ⟨(receivedOf p).data.set j c⟩ hs ?_ ?_
  · intro he
    exact set_ne_of_get_ne (receivedOf p).data j c hj hc (congrArg String.data he)
  · exact all_set (fun ch => decide (ch.toNat < 128)) (receivedOf p).data j c hra
      (decide_eq_true hca)

theorem C4_bad_signature_rejection_witness :
    verify_telegram_init_data hmZero "t" "a=1&hash=ff" =
      .error (.http 401 "Bad initData signature") :=
  C4_bad_signature_rejection.1 hmZero "t" "a=1&hash=ff" rfl rfl rfl (by decide)

/-- C10: a payload that contains the substring "hash=" but whose hash key
decodes to the empty value passes the missing-input guard and is then
rejected with bad-signature (the computed digest is 64 hex characters and
can never equal the empty received hash), not with missing-input. -/
theorem C10_empty_hash_bad_signature (hm : Hmac) (tok p : String)
    (hlen : ∀ k m, (hm k m).length = 32)
    (hh : strContains p "hash=" = true) (hr : receivedOf p = "") :
    verify_telegram_init_data hm tok p = .error (.http 401 "Bad initData signature") := by
  have hne : p.isEmpty = false := by
    cases hpe : p.isEmpty
    · rfl
    · exfalso
      rw [(String.isEmpty_iff p).mp hpe] at hh
      exact absurd hh (by decide)
  rw [verify_unfold hm tok p hne hh]
  have h64 : (calcOf hm tok p).length = 64 := by
    show (hexLower (hm _ _)).length = 64
    rw [hexLower_length, hlen]
  have hne64 : calcOf hm tok p ≠ "" := by
    intro e
    rw [e] at h64
    exact absurd h64 (by decide)
  have hcd : compare_digest (calcOf hm tok p) "" = .ok false := by
    unfold compare_digest
    have hcond : (asciiOnly (calcOf hm tok p) && asciiOnly "") = true := by
      rw [asciiOnly_calcOf]
      rfl
    rw [if_pos hcond, decide_eq_false hne64]
  rw [hr, hcd]

theorem C10_empty_hash_bad_signature_witness :
    verify_telegram_init_data hmZero "t" "user=x&hash=" =
      .error (.http 401 "Bad initData signature") :=
  C10_empty_hash_bad_signature hmZero "t" "user=x&hash="
    (fun _ _ => by simp [hmZero]) rfl rfl

/-- C5 counterexample: with duplicate keys, reordering the payload's
pairs changes which occurrence wins and therefore changes the canonical
check-string: the two payloads below decode to permuted pair lists yet
produce different check-strings, refuting order-independence for every
payload as stated. -/
theorem C5_counterexample :
    (parseQsl "a=1&a=2&hash=x").Perm (parseQsl "a=2&a=1&hash=x") ∧
    checkStringOf "a=1&a=2&hash=x" ≠ checkStringOf "a=2&a=1&hash=x" := by
  constructor
  · rw [show parseQsl "a=1&a=2&hash=x" = [("a", "1"), ("a", "2"), ("hash", "x")] from rfl,
      show parseQsl "a=2&a=1&hash=x" = [("a", "2"), ("a", "1"), ("hash", "x")] from rfl]
    exact List.Perm.swap _ _ _
  · decide

/-- C5 (amended): for well-formed payloads whose decoded dicts (duplicate
keys already resolved last-occurrence-wins) are rearrangements of each
other, the canonical check-string, and hence the signature and the whole
verification outcome, are identical — order of the key/value pairs is
irrelevant. -/
theorem C5_order_independence (hm : Hmac) (tok p₁ p₂ : String)
    (hne₁ : p₁.isEmpty = false) (hh₁ : strContains p₁ "hash=" = true)
    (hne₂ : p₂.isEmpty = false) (hh₂ : strContains p₂ "hash=" = true)
    (hperm : (dictOfPairs (parseQsl p₁)).Perm (dictOfPairs (parseQsl p₂))) :
    checkStringOf p₁ = checkStringOf p₂ ∧
    verify_telegram_init_data hm tok p₁ = verify_telegram_init_data hm tok p₂ := by
  have hn₁ : ((dictOfPairs (parseQsl p₁)).map Prod.fst).Nodup :=
    nodup_keys_dictOfPairs (parseQsl p₁)
  have hpf : (nonHashPairs p₁).Perm (nonHashPairs p₂) := hperm.filter _
  have hnf : ((nonHashPairs p₁).map Prod.fst).Nodup :=
    nodup_keys_filter (dictOfPairs (parseQsl p₁)) _ hn₁
  have hcs : checkStringOf p₁ = checkStringOf p₂ := dataCheckString_perm hpf hnf
  refine ⟨hcs, ?_⟩
  have hrecv : receivedOf p₁ = receivedOf p₂ := by
    unfold receivedOf popHashVal
    rw [alook_perm hperm hn₁ "hash"]
  have hcalc : calcOf hm tok p₁ = calcOf hm tok p₂ := by
    unfold calcOf deriveCalc
    rw [show dataCheckString (nonHashPairs p₁) = checkStringOf p₁ from rfl,
      show dataCheckString (nonHashPairs p₂) = checkStringOf p₂ from rfl, hcs]
  have huser : verifyUser (nonHashPairs p₁) = verifyUser (nonHashPairs p₂) :=
    verifyUser_eq_of_lookup (alook_perm hpf hnf "user")
  rw [verify_unfold hm tok p₁ hne₁ hh₁, verify_unfold hm tok p₂ hne₂ hh₂,
    hrecv, hcalc, huser]

theorem C5_order_independence_witness :
    checkStringOf "b=2&a=1&hash=x" = checkStringOf "a=1&b=2&hash=x" ∧
    verify_telegram_init_data hmZero "t" "b=2&a=1&hash=x" =
      verify_telegram_init_data hmZero "t" "a=1&b=2&hash=x" :=
  C5_order_independence hmZero "t" "b=2&a=1&hash=x" "a=1&b=2&hash=x" rfl rfl rfl rfl
    (by rw [show dictOfPairs (parseQsl "b=2&a=1&hash=x") =
          [("b", "2"), ("a", "1"), ("hash", "x")] from rfl,
        show dictOfPairs (parseQsl "a=1&b=2&hash=x") =
          [("a", "1"), ("b", "2"), ("hash", "x")] from rfl]
        exact List.Perm.swap _ _ _)

/-- C9 counterexample: a payload whose signature check passes and whose
user object carries id -5 verifies successfully and returns the
non-positive user id -5, refuting the claim that every returned user_id
is strictly positive. -/
theorem C9_counterexample :
    (verify_telegram_init_data hmZero "token"
        ("user=%7B%22id%22%3A-5%7D&hash=" ++ z64)).map (fun i => i.telegram_user_id) =
      .ok (-5) ∧ ¬ ((-5 : Int) > 0) :=
  ⟨rfl, by decide⟩

/-- C9 (amended): on success the verifier returns exactly the int()
conversion of the embedded user object's id field — with no positivity
(or 64-bit range) constraint: zero and negative ids are accepted
unchanged. -/
theorem C9_user_id_from_embedded_id (hm : Hmac) (tok p : String) (i : Identity)
    (hs : verify_telegram_init_data hm tok p = .ok i) :
    embeddedIdOf p = some i.telegram_user_id := by
  obtain ⟨-, -, -, hu⟩ := verify_ok_defs hs
  obtain ⟨raw, kvs, hl, hj, hp⟩ := verifyUser_ok hu
  unfold embeddedIdOf
  rw [hl]
  show (match jloads raw with
        | .ok (.obj kvs) =>
          (match pyInt ((alook "id" kvs).getD .null) with
           | .ok n => some n
           | .error _ => none)
        | _ => none) = some i.telegram_user_id
  rw [hj]
  show (match pyInt ((alook "id" kvs).getD .null) with
        | .ok n => some n
        | .error _ => none) = some i.telegram_user_id
  rw [hp]

theorem C9_user_id_from_embedded_id_witness :
    embeddedIdOf ("user=%7B%22id%22%3A-5%7D&hash=" ++ z64) = some (-5) :=
  C9_user_id_from_embedded_id hmZero "token" ("user=%7B%22id%22%3A-5%7D&hash=" ++ z64)
    ⟨.obj [("id", .num (-5))], -5, .null, .null, .null⟩ rfl

/-- C1: contrary to the claim, a payload with a valid signature whose
user value is malformed is NOT rejected with a classified 401 AuthError:
json.loads failures and int(None) escape as unhandled
ValueError/TypeError (surfaced by the framework as HTTP 500), which are
distinct from every HTTPException. -/
theorem C1_malformed_user_unclassified :
    verify_telegram_init_data hmZero "token" ("user=notjson&hash=" ++ z64) =
      .error (.valueError "Expecting value") ∧
    verify_telegram_init_data hmZero "token" ("user=%7B%7D&hash=" ++ z64) =
      .error (.typeError
        "int() argument must be a string, a bytes-like object or a real number, not NoneType") ∧
    (∀ (s : Nat) (d m : String), PyErr.valueError m ≠ .http s d) ∧
    (∀ (s : Nat) (d m : String), PyErr.typeError m ≠ .http s d) := by
  refine ⟨rfl, rfl, ?_, ?_⟩
  · intro s d m h
    exact PyErr.noConfusion h
  · intro s d m h
    exact PyErr.noConfusion h

theorem C1_malformed_user_unclassified_witness :
    PyErr.valueError "Expecting value" ≠ .http 401 "Missing initData" :=
  C1_malformed_user_unclassified.2.2.1 401 "Missing initData" "Expecting value"

/-! ## Claims about the configuration store -/

/-- Helper: after upserting the key (uid, tN) into a ticker-keyed table
with duplicate-free keys, the per-user listing view (filter the user's
rows, sort by ticker, project) contains the projected row, and contains
ticker tN exactly once. -/
theorem rows_view_spec {ν β : Type} (g : ((Int × String) × ν) → β)
    (l : List ((Int × String) × ν)) (uid : Int) (tN : String) (v : ν)
    (hnd : (l.map Prod.fst).Nodup) :
    (tN, g ((uid, tN), v)) ∈
      (sortLe (fun a b => strLe a.1.2 b.1.2)
        ((upd l (uid, tN) v).filter (fun r => decide (r.1.1 = uid)))).map
        (fun r => (r.1.2, g r)) ∧
    ((sortLe (fun a b => strLe a.1.2 b.1.2)
        ((upd l (uid, tN) v).filter (fun r => decide (r.1.1 = uid)))).map
        (fun r => (r.1.2, g r))).countP (fun it => decide (it.1 = tN)) = 1 := by
  constructor
  · have hmem : ((uid, tN), v) ∈ upd l (uid, tN) v := mem_upd_self l (uid, tN) v
    have hfil : ((uid, tN), v) ∈
        (upd l (uid, tN) v).filter (fun r => decide (r.1.1 = uid)) :=
      List.mem_filter.mpr ⟨hmem, by simp⟩
    have hsort : ((uid, tN), v) ∈
        sortLe (fun a b => strLe a.1.2 b.1.2)
          ((upd l (uid, tN) v).filter (fun r => decide (r.1.1 = uid))) :=
      ((sortLe_perm _ _).mem_iff).mpr hfil
    exact List.mem_map_of_mem (fun r => (r.1.2, g r)) hsort
  · rw [List.countP_map]
    rw [List.Perm.countP_eq _ (sortLe_perm _ _)]
    rw [List.countP_filter]
    have hcongr : ∀ r ∈ upd l (uid, tN) v,
        ((((fun it => decide (it.1 = tN)) ∘ (fun r => (r.1.2, g r))) r &&
          decide (r.1.1 = uid)) = true) ↔ (decide (r.1 = (uid, tN)) = true) := by
      intro r _
      rcases r with ⟨⟨a, b⟩, w⟩
      by_cases h1 : a = uid <;> by_cases h2 : b = tN <;>
        simp [Function.comp, Prod.ext_iff, h1, h2]
    rw [List.countP_congr hcongr]
    exact countP_key_upd l (uid, tN) v hnd

/-- Helper: get_priority decodes the stored settings row with json.loads. -/
theorem get_priority_of_alook (st : DB) (u : Identity) (pj : String)
    (h : alook u.telegram_user_id st.settings = some pj) :
    (get_priority st u).2 =
      (match jloads pj with | .ok v => v | .error _ => JVal.arr []) := by
  simp only [get_priority.eq_def, upsert_user_settings, h]

/-- C2: the spec says POST /api/budget validates the payload and rejects
negative budgets with a ValidationError, storing nothing. In fact
set_budget performs no validation: weekly_budget = -5 is echoed back with
200 OK and stored verbatim in the user's row. -/
theorem C2_counterexample :
    (set_budget DB.empty (idU 7)
      [("weekly_budget", JVal.num (-5)), ("dip_budget", JVal.num 40)]).2 =
      .ok (-5, 40) ∧
    (set_budget DB.empty (idU 7)
      [("weekly_budget", JVal.num (-5)), ("dip_budget", JVal.num 40)]).1.users =
      [(7, ⟨JVal.null, JVal.null, JVal.null, -5, 40⟩)] :=
  ⟨rfl, rfl⟩

/-- C2 (amended): set_budget stores whatever float() accepts, negative
values included, verbatim in the user's row and echoes it back; when
float() fails the error is a ValueError or TypeError (never an HTTP-status
ValidationError) and the state keeps only the profile upsert. -/
theorem C2_budgets_stored_verbatim (st : DB) (u : Identity)
    (body : List (String × JVal)) :
    (∀ w d : Rat,
      pyFloat (pyOr (bodyGet body "weekly_budget") (.num 0)) = .ok w →
      pyFloat (pyOr (bodyGet body "dip_budget") (.num 0)) = .ok d →
      (set_budget st u body).2 = .ok (w, d) ∧
      ∃ row : UserRow,
        alook u.telegram_user_id (set_budget st u body).1.users = some row ∧
        row.weekly_budget = w ∧ row.dip_budget = d) ∧
    (∀ e : PyErr,
      pyFloat (pyOr (bodyGet body "weekly_budget") (.num 0)) = .error e →
      set_budget st u body = (upsert_user st u, .error e)) ∧
    (∀ (v : JVal) (s : Nat) (det : String), pyFloat v ≠ .error (.http s det)) := by
  refine ⟨fun w d hw hd => ?_, fun e he => ?_, pyFloat_no_http⟩
  · obtain ⟨r₀, hr₀⟩ : ∃ r, alook u.telegram_user_id (upsert_user st u).users = some r :=
      ⟨_, alook_upd_self st.users u.telegram_user_id _⟩
    have hsb : set_budget st u body =
        (⟨upd (upsert_user st u).users u.telegram_user_id
            ⟨r₀.username, r₀.first_name, r₀.last_name, w, d⟩,
          (upsert_user st u).alerts, (upsert_user st u).dca,
          (upsert_user st u).settings⟩,
         .ok (w, d)) := by
      simp only [set_budget.eq_def, hw, hd, hr₀]
    refine ⟨by rw [hsb], ⟨r₀.username, r₀.first_name, r₀.last_name, w, d⟩, ?_, rfl, rfl⟩
    rw [hsb]
    exact alook_upd_self _ _ _
  · simp only [set_budget.eq_def, he]

/-- C2 witness: the amended success path at a concrete negative budget. -/
theorem C2_budgets_stored_verbatim_witness :
    (set_budget DB.empty (idU 7)
      [("weekly_budget", JVal.num (-8)), ("dip_budget", JVal.num 40)]).2 =
      .ok (-8, 40) ∧
    ∃ row : UserRow,
      alook (7 : Int) (set_budget DB.empty (idU 7)
        [("weekly_budget", JVal.num (-8)), ("dip_budget", JVal.num 40)]).1.users =
        some row ∧
      row.weekly_budget = -8 ∧ row.dip_budget = 40 :=
  (C2_budgets_stored_verbatim DB.empty (idU 7)
    [("weekly_budget", JVal.num (-8)), ("dip_budget", JVal.num 40)]).1
    (-8) 40 rfl rfl

/-- C6: upsert_dca with a level token that has no colon answers HTTP 400
with detail "Bad level format: tok (use drop:amount)" and leaves dca_rules
untouched; only the profile upsert happens. -/
theorem C6_bad_level_token_rejected (st : DB) (u : Identity)
    (body : List (String × JVal)) (t₀ l₀ tok : String)
    (ht : bodyGetStr body "ticker" = .ok t₀)
    (hl : bodyGetStr body "levels" = .ok l₀)
    (htn : ¬ pyUpper (pyStrip t₀) = "")
    (hbad : (parse_levels.pyTokens (pyStrip l₀)).find?
      (fun t => !(t.data.contains ':')) = some tok) :
    upsert_dca st u body =
      (upsert_user st u,
       .error (.http 400 ("Bad level format: " ++ tok ++ " (use drop:amount)"))) ∧
    (upsert_dca st u body).1.dca = st.dca := by
  have hpl : parse_levels (pyStrip l₀) =
      .error (.http 400 ("Bad level format: " ++ tok ++ " (use drop:amount)")) := by
    simp only [parse_levels.eq_def, hbad]
  have hmain : upsert_dca st u body =
      (upsert_user st u,
       .error (.http 400 ("Bad level format: " ++ tok ++ " (use drop:amount)"))) := by
    simp only [upsert_dca.eq_def, ht, hl, if_neg htn, hpl]
  exact ⟨hmain, by rw [hmain]; exact upsert_user_dca st u⟩

/-- C6 witness: ticker NVDA, levels "15-15", over a state that already
holds an NVDA rule; the rule survives unchanged. -/
theorem C6_bad_level_token_rejected_witness :
    upsert_dca ⟨[], [], [((7, "NVDA"), "x")], []⟩ (idU 7)
        [("ticker", JVal.str "NVDA"), ("levels", JVal.str "15-15")] =
      (upsert_user ⟨[], [], [((7, "NVDA"), "x")], []⟩ (idU 7),
       .error (.http 400 ("Bad level format: " ++ "15-15" ++ " (use drop:amount)"))) ∧
    (upsert_dca ⟨[], [], [((7, "NVDA"), "x")], []⟩ (idU 7)
        [("ticker", JVal.str "NVDA"), ("levels", JVal.str "15-15")]).1.dca =
      [((7, "NVDA"), "x")] :=
  C6_bad_level_token_rejected ⟨[], [], [((7, "NVDA"), "x")], []⟩ (idU 7)
    [("ticker", JVal.str "NVDA"), ("levels", JVal.str "15-15")]
    "NVDA" "15-15" "15-15" rfl rfl (by decide) rfl

/-- C3: the spec says the stored NVDA levels read back as the parsed
pairs [[15, 15], [25, 25], [35, 40]]. In fact upsert_dca stores
json.dumps of the raw token list, so list_dca returns the strings
["15:15", "25:25", "35:40"], none of which is a two-number pair. -/
theorem C3_counterexample :
    (upsert_dca DB.empty (idU 7) nvdaLevelsBody).2 = .ok () ∧
    (list_dca (upsert_dca DB.empty (idU 7) nvdaLevelsBody).1 (idU 7)).2 =
      [("NVDA", JVal.arr [.str "15:15", .str "25:25", .str "35:40"])] ∧
    ([JVal.str "15:15", JVal.str "25:25", JVal.str "35:40"].all
      (fun v => (specLevelPair v).isNone)) = true :=
  ⟨rfl, rfl, rfl⟩

/-- C3 (amended): after upsert_dca of ticker NVDA with levels
"15:15 25:25 35:40" succeeds, list_dca returns for NVDA the JSON array of
the untouched level token strings, in input order, and exactly one NVDA
row exists. -/
theorem C3_levels_stored_as_strings (st : DB) (u : Identity)
    (hnd : (st.dca.map Prod.fst).Nodup) :
    (upsert_dca st u nvdaLevelsBody).2 = .ok () ∧
    ("NVDA", JVal.arr [.str "15:15", .str "25:25", .str "35:40"]) ∈
      (list_dca (upsert_dca st u nvdaLevelsBody).1 u).2 ∧
    ((list_dca (upsert_dca st u nvdaLevelsBody).1 u).2).countP
      (fun it => decide (it.1 = "NVDA")) = 1 := by
  have hds : upsert_dca st u nvdaLevelsBody =
      (⟨(upsert_user st u).users, (upsert_user st u).alerts,
        upd (upsert_user st u).dca (u.telegram_user_id, "NVDA")
          (dumpsStrList ["15:15", "25:25", "35:40"]),
        (upsert_user st u).settings⟩,
       .ok ()) := rfl
  have hnd₁ : ((upsert_user st u).dca.map Prod.fst).Nodup := by
    rw [upsert_user_dca]
    exact hnd
  have hv := rows_view_spec
    (fun r => match jloads r.2 with | .ok v => v | .error _ => JVal.arr [])
    (upsert_user st u).dca u.telegram_user_id "NVDA"
    (dumpsStrList ["15:15", "25:25", "35:40"]) hnd₁
  refine ⟨by rw [hds], ?_, ?_⟩
  · rw [hds]
    exact hv.1
  · rw [hds]
    exact hv.2

/-- C3 witness: the amended theorem at the empty database. -/
theorem C3_levels_stored_as_strings_witness :
    (upsert_dca DB.empty (idU 7) nvdaLevelsBody).2 = .ok () ∧
    ("NVDA", JVal.arr [.str "15:15", .str "25:25", .str "35:40"]) ∈
      (list_dca (upsert_dca DB.empty (idU 7) nvdaLevelsBody).1 (idU 7)).2 ∧
    ((list_dca (upsert_dca DB.empty (idU 7) nvdaLevelsBody).1 (idU 7)).2).countP
      (fun it => decide (it.1 = "NVDA")) = 1 :=
  C3_levels_stored_as_strings DB.empty (idU 7) List.nodup_nil

/-- C7: set_priority stores json.dumps of the upper-cased whitespace or
comma separated tokens of the order text (duplicates kept, order kept)
and get_priority returns exactly that token list decoded. -/
theorem C7_priority_roundtrip (st : DB) (u : Identity)
    (body : List (String × JVal)) (s : String)
    (hb : bodyGetStr body "order" = .ok s)
    (hsafe : ∀ t ∈ priorityTokens (pyStrip s), jsonSafeStr t = true) :
    (set_priority st u body).2 = .ok (priorityTokens (pyStrip s)) ∧
    (get_priority (set_priority st u body).1 u).2 =
      .arr ((priorityTokens (pyStrip s)).map .str) := by
  have hsp : set_priority st u body =
      (⟨(upsert_user st u).users, (upsert_user st u).alerts, (upsert_user st u).dca,
        upd (upsert_user st u).settings u.telegram_user_id
          (dumpsStrList (priorityTokens (pyStrip s)))⟩,
       .ok (priorityTokens (pyStrip s))) := by
    simp only [set_priority.eq_def, hb]
  have hget : (get_priority (set_priority st u body).1 u).2 =
      (match jloads (dumpsStrList (priorityTokens (pyStrip s))) with
       | .ok v => v | .error _ => JVal.arr []) := by
    apply get_priority_of_alook
    rw [hsp]
    exact alook_upd_self _ _ _
  refine ⟨by rw [hsp], ?_⟩
  rw [hget, jloads_dumps _ hsafe]

/-- C7 witness: order "nvda qqq nvda" round-trips to NVDA, QQQ, NVDA with
the duplicate preserved. -/
theorem C7_priority_roundtrip_witness :
    (set_priority DB.empty (idU 7) [("order", JVal.str "nvda qqq nvda")]).2 =
      .ok ["NVDA", "QQQ", "NVDA"] ∧
    (get_priority (set_priority DB.empty (idU 7)
        [("order", JVal.str "nvda qqq nvda")]).1 (idU 7)).2 =
      .arr [.str "NVDA", .str "QQQ", .str "NVDA"] :=
  C7_priority_roundtrip DB.empty (idU 7) [("order", JVal.str "nvda qqq nvda")]
    "nvda qqq nvda" rfl (by decide)

/-- C8: a successful upsert_alert makes the alert appear exactly once in
list_alerts under the normalised ticker, and a second upsert for the same
ticker overwrites the row in place: still exactly one row, now with the
new drop_pct and enabled flag. -/
theorem C8_alert_roundtrip (st : DB) (u : Identity)
    (body body₂ : List (String × JVal)) (t₀ t₂ : String) (dv dv₂ : Rat)
    (hnd : (st.alerts.map Prod.fst).Nodup)
    (hb : bodyGetStr body "ticker" = .ok t₀)
    (hdv : pyFloat (pyOr (bodyGet body "drop_pct") (.num 0)) = .ok dv)
    (htn : ¬ pyUpper (pyStrip t₀) = "")
    (hb₂ : bodyGetStr body₂ "ticker" = .ok t₂)
    (hdv₂ : pyFloat (pyOr (bodyGet body₂ "drop_pct") (.num 0)) = .ok dv₂)
    (hteq : pyUpper (pyStrip t₂) = pyUpper (pyStrip t₀)) :
    (upsert_alert st u body).2 = .ok () ∧
    ((pyUpper (pyStrip t₀), dv, truthy ((alook "enabled" body).getD (.bool true))) ∈
      (list_alerts (upsert_alert st u body).1 u).2 ∧
     (list_alerts (upsert_alert st u body).1 u).2.countP
       (fun it => decide (it.1 = pyUpper (pyStrip t₀))) = 1) ∧
    ((pyUpper (pyStrip t₀), dv₂, truthy ((alook "enabled" body₂).getD (.bool true))) ∈
      (list_alerts (upsert_alert (upsert_alert st u body).1 u body₂).1 u).2 ∧
     (list_alerts (upsert_alert (upsert_alert st u body).1 u body₂).1 u).2.countP
       (fun it => decide (it.1 = pyUpper (pyStrip t₀))) = 1) := by
  have h1 : upsert_alert st u body =
      (⟨(upsert_user st u).users,
        upd (upsert_user st u).alerts (u.telegram_user_id, pyUpper (pyStrip t₀))
          (dv, truthy ((alook "enabled" body).getD (.bool true))),
        (upsert_user st u).dca, (upsert_user st u).settings⟩,
       .ok ()) := by
    simp only [upsert_alert.eq_def, hb, hdv, if_neg htn]
  have hndA : ((upsert_user st u).alerts.map Prod.fst).Nodup := by
    rw [upsert_user_alerts]
    exact hnd
  have h2 : upsert_alert (upsert_alert st u body).1 u body₂ =
      (⟨(upsert_user (upsert_alert st u body).1 u).users,
        upd (upsert_user (upsert_alert st u body).1 u).alerts
          (u.telegram_user_id, pyUpper (pyStrip t₀))
          (dv₂, truthy ((alook "enabled" body₂).getD (.bool true))),
        (upsert_user (upsert_alert st u body).1 u).dca,
        (upsert_user (upsert_alert st u body).1 u).settings⟩,
       .ok ()) := by
    simp only [upsert_alert.eq_def, hb₂, hdv₂, hteq, if_neg htn]
  have hndB : (((upsert_user (upsert_alert st u body).1 u).alerts).map Prod.fst).Nodup := by
    rw [upsert_user_alerts, h1]
    exact nodup_keys_upd _ _ _ hndA
  have hv₁ := rows_view_spec (fun r => (r.2.1, r.2.2)) (upsert_user st u).alerts
    u.telegram_user_id (pyUpper (pyStrip t₀))
    (dv, truthy ((alook "enabled" body).getD (.bool true))) hndA
  have hv₂ := rows_view_spec (fun r => (r.2.1, r.2.2))
    (upsert_user (upsert_alert st u body).1 u).alerts
    u.telegram_user_id (pyUpper (pyStrip t₀))
    (dv₂, truthy ((alook "enabled" body₂).getD (.bool true))) hndB
  refine ⟨by rw [h1], ?_, ?_⟩
  · rw [h1]
    exact hv₁
  · rw [h2]
    exact hv₂

/-- C8 witness: alert nvda at 10, then the overwrite at 12, listed once
each time as NVDA. -/
theorem C8_alert_roundtrip_witness :
    (upsert_alert DB.empty (idU 7)
      [("ticker", JVal.str "nvda"), ("drop_pct", JVal.num 10)]).2 = .ok () ∧
    ((("NVDA", (10 : Rat), true)) ∈
      (list_alerts (upsert_alert DB.empty (idU 7)
        [("ticker", JVal.str "nvda"), ("drop_pct", JVal.num 10)]).1 (idU 7)).2 ∧
     (list_alerts (upsert_alert DB.empty (idU 7)
        [("ticker", JVal.str "nvda"), ("drop_pct", JVal.num 10)]).1 (idU 7)).2.countP
       (fun it => decide (it.1 = "NVDA")) = 1) ∧
    ((("NVDA", (12 : Rat), true)) ∈
      (list_alerts (upsert_alert (upsert_alert DB.empty (idU 7)
          [("ticker", JVal.str "nvda"), ("drop_pct", JVal.num 10)]).1 (idU 7)
          [("ticker", JVal.str "nvda"), ("drop_pct", JVal.num 12)]).1 (idU 7)).2 ∧
     (list_alerts (upsert_alert (upsert_alert DB.empty (idU 7)
          [("ticker", JVal.str "nvda"), ("drop_pct", JVal.num 10)]).1 (idU 7)
          [("ticker", JVal.str "nvda"), ("drop_pct", JVal.num 12)]).1 (idU 7)).2.countP
       (fun it => decide (it.1 = "NVDA")) = 1) :=
  C8_alert_roundtrip DB.empty (idU 7)
    [("ticker", JVal.str "nvda"), ("drop_pct", JVal.num 10)]
    [("ticker", JVal.str "nvda"), ("drop_pct", JVal.num 12)]
    "nvda" "nvda" 10 12 List.nodup_nil rfl rfl (by decide) rfl rfl rfl
end Webapp
